import Mathlib

/-!
Shallow embedding of the schedule-generation engine
(`scheduler.py`, `constraint_manager.py`, `models/study_plan.py`,
`halls.py`, `staff_members.py`) together with the parts of the
resource manager and time model that the repository references but
whose sources are not available (`resource_manager.py`,
`time_preferences.py`, `labs.py`); those are modelled from the
specification and are marked as such in their doc comments.

Python conventions carried over:
* `dict` is an insertion-ordered association list; inserting an
  existing key updates the stored value in place.
* Python `int` is `Int`; Python floor division `//` is `Int.fdiv`.
* Python `float` scores are modelled as exact rational arithmetic via
  the fraction type `Frac` below (every literal appearing in the
  source is a decimal fraction, so the arithmetic is exact).
* `datetime.time` is a (hour, minute) pair ordered lexicographically.
* A method that mutates `self.state` is embedded as a function that
  returns the new state explicitly.
-/

deriving instance DecidableEq for Except

namespace Sched

/-- Python `float` values are modelled as exact fractions: a numerator
with a positive denominator, not normalised (every constant in the
source is a small decimal, so all arithmetic on them is exact).
Unnormalised fractions keep every operation kernel-computable, unlike
`ℚ` whose normalisation calls the non-reducing `Nat.gcd`; the map
`Frac.toRat` below identifies a fraction with the rational it denotes,
and all order reasoning happens through it. -/
structure Frac where
  num : Int
  den : Int
  den_pos : 0 < den

instance : Repr Frac where
  reprPrec f _ := repr f.num ++ " / " ++ repr f.den

/-- Fraction literal `n / d` (used for the decimal constants of the
source, all of which have positive denominators). -/
def frac (n : Int) (d : Int) : Frac :=
  if h : 0 < d then ⟨n, d, h⟩ else ⟨n, 1, Int.zero_lt_one⟩

def Frac.ofInt (n : Int) : Frac := ⟨n, 1, Int.zero_lt_one⟩

def Frac.add (a b : Frac) : Frac :=
  ⟨a.num * b.den + b.num * a.den, a.den * b.den, Int.mul_pos a.den_pos b.den_pos⟩

def Frac.mul (a b : Frac) : Frac :=
  ⟨a.num * b.num, a.den * b.den, Int.mul_pos a.den_pos b.den_pos⟩

/-- Exact division; division by zero yields 0 (Python raises
`ZeroDivisionError` there — the engine only divides by positive
capacities and by non-zero map sizes, where both agree). -/
def Frac.div (a b : Frac) : Frac :=
  if h : 0 < b.num then ⟨a.num * b.den, a.den * b.num, Int.mul_pos a.den_pos h⟩
  else if h' : b.num < 0 then
    ⟨-(a.num * b.den), a.den * (-b.num), Int.mul_pos a.den_pos (Int.neg_pos.mpr h')⟩
  else ⟨0, 1, Int.zero_lt_one⟩

/-- Python `<=` on floats (cross multiplication; denominators are
positive). -/
def Frac.ble (a b : Frac) : Bool := decide (a.num * b.den ≤ b.num * a.den)

/-- Python `<` on floats. -/
def Frac.blt (a b : Frac) : Bool := decide (a.num * b.den < b.num * a.den)

/-- Python `==` on floats (numeric, not structural, equality). -/
def Frac.beq (a b : Frac) : Bool := decide (a.num * b.den = b.num * a.den)

/-- The rational a fraction denotes. -/
def Frac.toRat (f : Frac) : ℚ := (f.num : ℚ) / (f.den : ℚ)

/-- Modelled from the spec: `time_preferences.py` is not in the sources;
the day enumeration ranges over the five teaching days SUN..THU. -/
inductive Day where
  | SUNDAY | MONDAY | TUESDAY | WEDNESDAY | THURSDAY
deriving DecidableEq, Repr

/-- Modelled from the spec: `datetime.time` restricted to hour/minute,
ordered lexicographically as Python orders `time` values. -/
structure TimeOfDay where
  hour : Nat
  minute : Nat
deriving DecidableEq, Repr

/-- Python `t1 <= t2` on `datetime.time` values. -/
def TimeOfDay.le (a b : TimeOfDay) : Bool :=
  a.hour < b.hour || (a.hour == b.hour && a.minute ≤ b.minute)

/-- Modelled from the spec: `time_preferences.TimePreference`, a
(day, start_time, end_time) window. -/
structure TimePreference where
  day : Day
  start_time : TimeOfDay
  end_time : TimeOfDay
deriving DecidableEq, Repr

/-- Department enumeration from `models.py` (values irrelevant to the
engine; carried for faithfulness of the staff record). -/
inductive Department where
  | COMPUTER_SCIENCE | INFORMATION_TECHNOLOGY | INFORMATION_SCIENCE
  | GENERAL | ARTIFICIAL_INTELLIGENCE | CYBERSECURITY
  | INFORMATION_SYSTEMS
deriving DecidableEq, Repr

/-- AcademicDegree enumeration from `staff_members.py`. -/
inductive AcademicDegree where
  | PROFESSOR | ASSOCIATE_PROFESSOR | ASSISTANT_PROFESSOR
  | ASSISTANT_LECTURER | TEACHING_ASSISTANT
deriving DecidableEq, Repr

/-- Which concrete Python subclass of `StaffMember` an object belongs
to; `isinstance(x, Lecturer)` becomes `x.role = .lecturer`.
`StaffMember` itself cannot be instantiated (its `__post_init__`
raises), so every staff object carries one of the two tags. -/
inductive StaffRole where
  | lecturer | teachingAssistant
deriving DecidableEq, Repr

/-- StaffMember from `staff_members.py` (flattened class hierarchy). -/
structure StaffMember where
  id : Int
  name : String
  department : Department
  timing_preferences : List TimePreference
  academic_degree : AcademicDegree
  is_permanent : Bool
  role : StaffRole
deriving DecidableEq, Repr

/-- Hall from `halls.py`. -/
structure Hall where
  id : Int
  name : String
  capacity : Int
  availability : List TimePreference
deriving DecidableEq, Repr

/-- Modelled from the spec: `labs.py` is not in the sources; a lab type
tag (only GENERAL is referenced by the tests). -/
inductive LabType where
  | GENERAL | SPECIALIST
deriving DecidableEq, Repr

/-- Modelled from the spec: `labs.Lab` — like a hall plus a type tag and
the `used_in_non_specialist_courses` flag. -/
structure Lab where
  id : Int
  name : String
  capacity : Int
  availability : List TimePreference
  lab_type : LabType
  used_in_non_specialist_courses : Bool
deriving DecidableEq, Repr

/-- Python `Union[Hall, Lab]` as used for rooms throughout the engine. -/
inductive Room where
  | hall : Hall → Room
  | lab : Lab → Room
deriving DecidableEq, Repr

def Room.id : Room → Int
  | .hall h => h.id
  | .lab l => l.id

def Room.capacity : Room → Int
  | .hall h => h.capacity
  | .lab l => l.capacity

def Room.availability : Room → List TimePreference
  | .hall h => h.availability
  | .lab l => l.availability

/-- Python `isinstance(room, Lab)`. -/
def Room.isLab : Room → Bool
  | .hall _ => false
  | .lab _ => true

/-- Python `isinstance(room, Hall)`. -/
def Room.isHall : Room → Bool
  | .hall _ => true
  | .lab _ => false

/-- BlockType from `scheduler.py`. -/
inductive BlockType where
  | LECTURE | LAB
deriving DecidableEq, Repr

/-- Block from `scheduler.py`. -/
structure Block where
  id : String
  course_code : String
  block_type : BlockType
  staff_member : StaffMember
  student_count : Int
  required_room_type : String
  group_number : Int
  total_groups : Int
  is_single_group_course : Bool
  academic_list : String
  academic_level : Int
  practical_in_lab : Bool := true
  preferred_rooms : Option (List Room) := none
deriving DecidableEq, Repr

/-- Python truthiness of `block.preferred_rooms` (`None` and the empty
list are both falsy). -/
def listTruthy (o : Option (List Room)) : Bool :=
  match o with
  | none => false
  | some [] => false
  | some (_ :: _) => true

/-- Assignment from `scheduler.py`. -/
structure Assignment where
  block : Block
  time_slot : TimePreference
  room : Room
deriving DecidableEq, Repr

/-- Python `Dict[str, Assignment]`: an insertion-ordered association
list; inserting an existing key replaces its value in place. -/
abbrev AssignMap := List (String × Assignment)

/-- Python dict lookup `m.get(k)` on an association list. -/
def alGet? {κ α : Type} [DecidableEq κ] (m : List (κ × α)) (k : κ) : Option α :=
  match m with
  | [] => none
  | (k', v) :: rest => if k' = k then some v else alGet? rest k

/-- Python dict assignment `m[k] = v`: update in place when the key is
present, append otherwise (insertion order is preserved). -/
def alInsert {κ α : Type} [DecidableEq κ] (m : List (κ × α)) (k : κ) (v : α) :
    List (κ × α) :=
  match m with
  | [] => [(k, v)]
  | (k', v') :: rest =>
    if k' = k then (k, v) :: rest else (k', v') :: alInsert rest k v

/-- Python `k in m` for a dict. -/
def alContains {κ α : Type} [DecidableEq κ] (m : List (κ × α)) (k : κ) : Bool :=
  (alGet? m k).isSome

/-- Python `m.get(k, d)`. -/
def alGetD {κ α : Type} [DecidableEq κ] (m : List (κ × α)) (k : κ) (d : α) : α :=
  (alGet? m k).getD d

/-- SchedulerState from `constraint_manager.py`: the five incremental
index maps, each a Python dict embedded as an association list. -/
structure SchedulerState where
  room_bookings : List (Int × List ((Day × TimeOfDay) × String))
  staff_bookings : List (Int × List ((Day × TimeOfDay) × String))
  course_slots : List (String × List ((Day × TimeOfDay) × Int))
  level_slots : List ((String × Int) × List (Day × List TimeOfDay))
  study_plan_slots : List ((String × Day × TimeOfDay) × List String)
deriving DecidableEq, Repr

/-- `SchedulerState.create_empty`. -/
def SchedulerState.create_empty : SchedulerState :=
  ⟨[], [], [], [], []⟩

/-- The constraint manager's mutable fields that constraint predicates
read: `self.state` and `self.current_assignments`. -/
structure CMCtx where
  state : SchedulerState
  current_assignments : AssignMap
deriving DecidableEq, Repr

/-- The manager as constructed by `ConstraintManager.__init__` (before
the first `update_state` call `current_assignments` is unset; it is
only ever read after an update, so the empty map stands in for it). -/
def initialCMCtx : CMCtx :=
  ⟨SchedulerState.create_empty, []⟩

/-- One step of `update_state`'s loop body: record `(block_id,
assignment)` in all five maps. -/
def updateStateStep (st : SchedulerState) (block_id : String)
    (assignment : Assignment) : SchedulerState :=
  let block := assignment.block
  let slot_key := (assignment.time_slot.day, assignment.time_slot.start_time)
  let rb := alInsert st.room_bookings assignment.room.id
    (alInsert (alGetD st.room_bookings assignment.room.id []) slot_key block_id)
  let sb := alInsert st.staff_bookings block.staff_member.id
    (alInsert (alGetD st.staff_bookings block.staff_member.id []) slot_key block_id)
  let csPrev := alGetD st.course_slots block.course_code []
  let cs := alInsert st.course_slots block.course_code
    (alInsert csPrev slot_key (alGetD csPrev slot_key 0 + 1))
  let level_key := (block.academic_list, block.academic_level)
  let lsPrev := alGetD st.level_slots level_key []
  let ls := alInsert st.level_slots level_key
    (alInsert lsPrev assignment.time_slot.day
      (alGetD lsPrev assignment.time_slot.day [] ++ [assignment.time_slot.start_time]))
  let study_plan_key :=
    (block.academic_list, assignment.time_slot.day, assignment.time_slot.start_time)
  let sp := alInsert st.study_plan_slots study_plan_key
    (alGetD st.study_plan_slots study_plan_key [] ++ [block_id])
  ⟨rb, sb, cs, ls, sp⟩

/-- `ConstraintManager.update_state`: wipe the state and repopulate it
from `assignments` in one pass, also remembering the full map. -/
def update_state (assignments : AssignMap) : CMCtx :=
  ⟨assignments.foldl (fun st kv => updateStateStep st kv.1 kv.2)
      SchedulerState.create_empty,
    assignments⟩

/-- `ConstraintManager.check_room_booking`. -/
def check_room_booking (ctx : CMCtx) (_block : Block) (slot : TimePreference)
    (room : Room) : Bool :=
  let slot_key := (slot.day, slot.start_time)
  !(alContains (alGetD ctx.state.room_bookings room.id []) slot_key)

/-- `ConstraintManager.check_staff_booking`. -/
def check_staff_booking (ctx : CMCtx) (block : Block) (slot : TimePreference)
    (_room : Room) : Bool :=
  let slot_key := (slot.day, slot.start_time)
  !(alContains (alGetD ctx.state.staff_bookings block.staff_member.id []) slot_key)

/-- `ConstraintManager.check_room_availability`. -/
def check_room_availability (_ctx : CMCtx) (_block : Block)
    (slot : TimePreference) (room : Room) : Bool :=
  room.availability.any (fun pref =>
    pref.day == slot.day && TimeOfDay.le pref.start_time slot.start_time
      && TimeOfDay.le slot.end_time pref.end_time)

/-- The `existing_blocks` resolution loop of
`check_single_group_conflict`: each recorded block id is looked up among
the current assignments' values, keeping the first hit. -/
def resolveExistingBlocks (ctx : CMCtx) (ids : List String) : List Block :=
  ids.filterMap (fun block_id =>
    (ctx.current_assignments.find? (fun kv => kv.2.block.id == block_id)).map
      (fun kv => kv.2.block))

/-- `ConstraintManager.check_single_group_conflict`. -/
def check_single_group_conflict (ctx : CMCtx) (block : Block)
    (slot : TimePreference) (_room : Room) : Bool :=
  let slot_key := (block.academic_list, slot.day, slot.start_time)
  match alGet? ctx.state.study_plan_slots slot_key with
  | none => true
  | some recorded =>
    let existing_blocks := resolveExistingBlocks ctx recorded
    if block.is_single_group_course then false
    else if existing_blocks.any (fun eb => eb.is_single_group_course) then false
    else if existing_blocks.any (fun eb =>
        eb.course_code == block.course_code
          && (block.total_groups == 1 || eb.total_groups == 1)) then false
    else true

/-- `ConstraintManager.check_lab_requirements`. -/
def check_lab_requirements (_ctx : CMCtx) (block : Block)
    (_slot : TimePreference) (room : Room) : Bool :=
  if block.required_room_type = "lab" then
    match room with
    | .hall _ => false
    | .lab l =>
      if listTruthy block.preferred_rooms then
        decide (room ∈ block.preferred_rooms.getD [])
      else if !l.used_in_non_specialist_courses then false
      else true
  else if block.required_room_type = "hall" && !room.isHall then false
  else true

/-- The hard-constraint registry built by
`ConstraintManager.setup_constraints`, in registration order. -/
def hard_constraints :
    List ((CMCtx → Block → TimePreference → Room → Bool) × String) :=
  [ (check_room_booking, "No double room booking"),
    (check_staff_booking, "No double staff booking"),
    (check_room_availability, "Room must be available in the given time slot"),
    (check_single_group_conflict, "Single group courses cannot have parallel sessions"),
    (check_lab_requirements, "Lab specialization and preferences must be met") ]

/-- `ConstraintManager.check_all_constraints`. The Python method first
overwrites `self.state` via `update_state(assignments)` and then
short-circuits through the registered hard constraints, so both its
result and the posterior manager state depend only on the arguments;
the embedding returns the posterior state explicitly. -/
def check_all_constraints (block : Block) (slot : TimePreference) (room : Room)
    (assignments : AssignMap) : CMCtx × (Bool × Option String) :=
  let ctx := update_state assignments
  let rec go : List ((CMCtx → Block → TimePreference → Room → Bool) × String) →
      Bool × Option String
    | [] => (true, none)
    | c :: rest => if !(c.1 ctx block slot room) then (false, some c.2) else go rest
  (ctx, go hard_constraints)

/-- `ConstraintManager.evaluate_lecturer_preferences`. -/
def evaluate_lecturer_preferences (_ctx : CMCtx) (block : Block)
    (slot : TimePreference) (_room : Room) : Frac :=
  if block.staff_member.role ≠ StaffRole.lecturer then Frac.ofInt 0
  else if block.staff_member.timing_preferences.any (fun pref =>
      pref.day == slot.day && pref.start_time == slot.start_time) then Frac.ofInt 1
  else Frac.ofInt 0

/-- `ConstraintManager.evaluate_ta_preferences`. -/
def evaluate_ta_preferences (_ctx : CMCtx) (block : Block)
    (slot : TimePreference) (_room : Room) : Frac :=
  if block.staff_member.role ≠ StaffRole.teachingAssistant then Frac.ofInt 0
  else if block.staff_member.timing_preferences.any (fun pref =>
      pref.day == slot.day && pref.start_time == slot.start_time) then Frac.ofInt 1
  else Frac.ofInt 0

/-- Python `sorted` on `datetime.time` values (insertion sort by the
lexicographic order; the sorted sequence is unique as a multiset, which
is all `evaluate_gaps` observes). -/
def tinsert (x : TimeOfDay) : List TimeOfDay → List TimeOfDay
  | [] => [x]
  | y :: ys => if TimeOfDay.le x y then x :: y :: ys else y :: tinsert x ys

def tsort : List TimeOfDay → List TimeOfDay
  | [] => []
  | x :: xs => tinsert x (tsort xs)

/-- `ConstraintManager.evaluate_gaps`. -/
def evaluate_gaps (ctx : CMCtx) (block : Block) (slot : TimePreference)
    (_room : Room) : Frac :=
  let level_key := (block.academic_list, block.academic_level)
  match alGet? ctx.state.level_slots level_key with
  | none => Frac.ofInt 1
  | some byDay =>
    match alGet? byDay slot.day with
    | none => Frac.ofInt 1
    | some raw =>
      let day_slots := tsort raw
      let gaps := (day_slots.zip day_slots.tail).map
        (fun p => (p.2.hour : Int) - (p.1.hour : Int))
      let max_gap0 : Int := gaps.foldl max 0
      let max_gap : Int :=
        match day_slots with
        | [] => max_gap0
        | t :: ts =>
          let hours := (t :: ts).map (fun u => (u.hour : Int))
          let mn := hours.foldl min (t.hour : Int)
          let mx := hours.foldl max (t.hour : Int)
          let before_gap := |(slot.start_time.hour : Int) - mn|
          let after_gap := |(slot.start_time.hour : Int) - mx|
          max (max max_gap0 before_gap) after_gap
      if max_gap ≤ 2 then Frac.ofInt 1
      else if max_gap ≤ 4 then frac 1 2
      else Frac.ofInt 0

/-- `ConstraintManager.evaluate_room_capacity`. -/
def evaluate_room_capacity (_ctx : CMCtx) (block : Block)
    (_slot : TimePreference) (room : Room) : Frac :=
  let required_capacity := Frac.ofInt block.student_count
  let utilization := required_capacity.div (Frac.ofInt room.capacity)
  if Frac.ble (frac 1 2) utilization && Frac.ble utilization (frac 9 10) then
    Frac.ofInt 1
  else if Frac.ble (frac 3 10) utilization && Frac.blt utilization (frac 1 2) then
    frac 7 10
  else if Frac.blt (frac 9 10) utilization && Frac.ble utilization (Frac.ofInt 1) then
    frac 7 10
  else if Frac.blt utilization (frac 3 10) then frac 3 10
  else Frac.ofInt 0

/-- The soft-constraint registry built by
`ConstraintManager.setup_constraints`, with weights, in order. -/
def soft_constraints :
    List ((CMCtx → Block → TimePreference → Room → Frac) × Frac) :=
  [ (evaluate_lecturer_preferences, Frac.ofInt 5),
    (evaluate_ta_preferences, Frac.ofInt 3),
    (evaluate_gaps, Frac.ofInt 2),
    (evaluate_room_capacity, frac 3 2) ]

/-- `ConstraintManager.evaluate_soft_constraints`: the weighted sum over
the registry, read against the most recently rebuilt state. -/
def evaluate_soft_constraints (ctx : CMCtx) (block : Block)
    (slot : TimePreference) (room : Room) : Frac :=
  soft_constraints.foldl
    (fun total c => total.add ((c.1 ctx block slot room).mul c.2)) (Frac.ofInt 0)

/-- Course from `models/academic_list.py`. -/
structure Course where
  code : String
  name_en : String
  name_ar : String
  lecture_hours : Int
  practical_hours : Int
  credit_hours : Int
  prerequisite_course : Option String := none
deriving DecidableEq, Repr

/-- AcademicList from `models/academic_list.py`. -/
structure AcademicList where
  name : String
  department : Department
  courses : List Course
deriving DecidableEq, Repr

/-- LecturerAssignment TypedDict from `models/study_plan.py`. -/
structure LecturerAssignment where
  lecturer : StaffMember
  num_of_groups : Int
deriving DecidableEq, Repr

/-- TAAssignment TypedDict from `models/study_plan.py`. -/
structure TAAssignment where
  teaching_assistant : StaffMember
  num_of_groups : Int
deriving DecidableEq, Repr

/-- CourseAssignment from `models/study_plan.py` (its `__post_init__`
validation is stated separately as propositions where a theorem needs
it; `lab_groups : Optional[int] = 0` is embedded as `Int` since a
literal `None` there would already crash the Python validator). -/
structure CourseAssignment where
  course_code : String
  lecture_groups : Int
  lecturers : List LecturerAssignment
  lab_groups : Int := 0
  teaching_assistants : Option (List TAAssignment) := none
  practical_in_lab : Bool := true
  preferred_labs : Option (List Lab) := none
  is_common : Bool := false
deriving DecidableEq, Repr

/-- StudyPlan from `models/study_plan.py`. -/
structure StudyPlan where
  name : String
  academic_list : AcademicList
  academic_level : Int
  expected_students : Int
  course_assignments : List CourseAssignment
deriving DecidableEq, Repr

/-- SchedulingAttempt from `scheduler.py`. -/
structure SchedulingAttempt where
  assignments : AssignMap
  score : Frac
  unassigned_blocks : List String
deriving Repr

/-- Modelled from the spec: `resource_manager.ResourceManager` owns the
static pools of halls and labs (`ResourceManager(halls, labs)`). -/
structure ResourceManager where
  halls : List Hall
  labs : List Lab
deriving Repr

/-- Modelled from the spec: `ResourceManager.get_suitable_rooms` — all
rooms whose type matches `required_room_type` and whose capacity is at
least 0.8 × student_count; for labs, restricted to `preferred_rooms`
when that is non-empty and otherwise excluding labs reserved for
specialist courses. Rooms are enumerated in pool order. -/
def get_suitable_rooms (rm : ResourceManager) (block : Block) : List Room :=
  if block.required_room_type = "hall" then
    (rm.halls.map Room.hall).filter (fun r =>
      Frac.ble ((frac 4 5).mul (Frac.ofInt block.student_count)) (Frac.ofInt r.capacity))
  else if block.required_room_type = "lab" then
    (rm.labs.map Room.lab).filter (fun r =>
      Frac.ble ((frac 4 5).mul (Frac.ofInt block.student_count)) (Frac.ofInt r.capacity)
        && (if listTruthy block.preferred_rooms then
              decide (r ∈ block.preferred_rooms.getD [])
            else
              match r with
              | .lab l => l.used_in_non_specialist_courses
              | .hall _ => false))
  else []

/-- Whether `assignments` already books this room at the (day, start)
pair of `p`. -/
def slotTakenByRoom (assignments : AssignMap) (room : Room)
    (p : TimePreference) : Bool :=
  assignments.any (fun kv =>
    kv.2.room.id == room.id && kv.2.time_slot.day == p.day
      && kv.2.time_slot.start_time == p.start_time)

/-- Whether `assignments` already books this block's staff member at the
(day, start) pair of `p`. -/
def slotTakenByStaff (assignments : AssignMap) (block : Block)
    (p : TimePreference) : Bool :=
  assignments.any (fun kv =>
    kv.2.block.staff_member.id == block.staff_member.id
      && kv.2.time_slot.day == p.day
      && kv.2.time_slot.start_time == p.start_time)

/-- Modelled from the spec: `ResourceManager.get_available_slots` — the
staff member's timing-preference slots that fall inside one of the
room's availability windows, excluding (day, start) pairs already taken
by this room or this staff in `assignments` (the tests assert exactly
that every returned slot lies inside a staff preference window). -/
def get_available_slots (block : Block) (room : Room)
    (assignments : AssignMap) : List TimePreference :=
  block.staff_member.timing_preferences.filter (fun p =>
    room.availability.any (fun w =>
        w.day == p.day && TimeOfDay.le w.start_time p.start_time
          && TimeOfDay.le p.end_time w.end_time)
      && !(slotTakenByRoom assignments room p)
      && !(slotTakenByStaff assignments block p))

/-- The engine's `self.current_attempt` field: `__init__` sets it to
`None` and no statement in the class ever assigns it again, so every
read of `self.current_attempt.assignments if self.current_attempt else
{}` yields the empty map. -/
def engine_current_attempt : Option SchedulingAttempt := none

/-- The map the engine hands to `get_available_slots` (the
`self.current_attempt.assignments if self.current_attempt else {}`
expression in `_get_possible_slots` and `_sort_blocks_by_priority`). -/
def currentAttemptAssignments : AssignMap :=
  match engine_current_attempt with
  | some a => a.assignments
  | none => []

/-- `SchedulingEngine._get_possible_slots`. -/
def get_possible_slots (block : Block) (room : Room) : List TimePreference :=
  get_available_slots block room currentAttemptAssignments

/-- The lecture Block constructed by
`SchedulingEngine._convert_course_assignments_to_blocks` for group
number `n`. -/
def mkLectureBlock (course : CourseAssignment) (study_plan : StudyPlan)
    (lecturer : StaffMember) (n : Int) : Block :=
  { id := "L_" ++ course.course_code ++ "_" ++ toString lecturer.id
      ++ "_" ++ toString n
    course_code := course.course_code
    block_type := .LECTURE
    staff_member := lecturer
    student_count := Int.fdiv study_plan.expected_students course.lecture_groups
    required_room_type := "hall"
    group_number := n
    total_groups := course.lecture_groups
    is_single_group_course := course.lecture_groups == 1
    academic_list := study_plan.academic_list.name
    academic_level := study_plan.academic_level }

/-- The lab Block constructed for group number `n`. -/
def mkLabBlock (course : CourseAssignment) (study_plan : StudyPlan)
    (ta : StaffMember) (n : Int) : Block :=
  { id := "P_" ++ course.course_code ++ "_" ++ toString ta.id
      ++ "_" ++ toString n
    course_code := course.course_code
    block_type := .LAB
    staff_member := ta
    student_count := Int.fdiv study_plan.expected_students course.lab_groups
    required_room_type := if course.practical_in_lab then "lab" else "hall"
    preferred_rooms := course.preferred_labs.map (fun ls => ls.map Room.lab)
    group_number := n
    total_groups := course.lab_groups
    is_single_group_course := course.lab_groups == 1
    academic_list := study_plan.academic_list.name
    academic_level := study_plan.academic_level
    practical_in_lab := course.practical_in_lab }

/-- The lecture loop of `_convert_course_assignments_to_blocks`: the
counter starts at 1 and increments once per emitted block (Python
`range(num_of_groups)` is empty for non-positive counts). -/
def lectureBlocksLoop (course : CourseAssignment) (study_plan : StudyPlan) :
    List LecturerAssignment → Int → List Block
  | [], _ => []
  | la :: rest, cnt =>
    (List.range la.num_of_groups.toNat).map
        (fun (i : Nat) => mkLectureBlock course study_plan la.lecturer (cnt + (i : Int)))
      ++ lectureBlocksLoop course study_plan rest (cnt + (la.num_of_groups.toNat : Int))

/-- The lab loop of `_convert_course_assignments_to_blocks`. -/
def labBlocksLoop (course : CourseAssignment) (study_plan : StudyPlan) :
    List TAAssignment → Int → List Block
  | [], _ => []
  | ta :: rest, cnt =>
    (List.range ta.num_of_groups.toNat).map
        (fun (i : Nat) => mkLabBlock course study_plan ta.teaching_assistant (cnt + (i : Int)))
      ++ labBlocksLoop course study_plan rest (cnt + (ta.num_of_groups.toNat : Int))

/-- `SchedulingEngine._convert_course_assignments_to_blocks`. Lab blocks
are generated when `course.lab_groups` is truthy (non-zero); iterating a
`None` teaching-assistant list would crash Python before this point, so
it is read with an empty default. -/
def convert_course_assignments_to_blocks (course_assignments : List CourseAssignment)
    (study_plan : StudyPlan) : List Block :=
  (course_assignments.map (fun course =>
    lectureBlocksLoop course study_plan course.lecturers 1
      ++ (if course.lab_groups ≠ 0 then
            labBlocksLoop course study_plan (course.teaching_assistants.getD []) 1
          else []))).flatten

/-- `SchedulingEngine._calculate_block_priority` (defined twice in the
source with identical bodies; the later definition is in effect). -/
def calculate_block_priority (block : Block) : Frac :=
  let score := Frac.ofInt 0
  let score := if listTruthy block.preferred_rooms then score.add (Frac.ofInt 10) else score
  let score := if block.is_single_group_course then score.add (Frac.ofInt 20) else score
  let score := if block.staff_member.role = StaffRole.lecturer then
    score.add (Frac.ofInt 15) else score
  let score := if block.required_room_type = "lab" then score.add (Frac.ofInt 8) else score
  score.add ((Frac.ofInt block.student_count).div (Frac.ofInt 100))

/-- The priority tuple computed by `get_block_score` inside
`_sort_blocks_by_priority` (Python compares such tuples
lexicographically, with False < True). -/
abbrev PKey := Bool × Int × Int × Frac

/-- `get_block_score`: note that the slot totals are computed against
`self.current_attempt`, which is always `None`. -/
def get_block_score (rm : ResourceManager) (block : Block) : PKey :=
  let possible_rooms := get_suitable_rooms rm block
  let total_available_slots : Int := possible_rooms.foldl
    (fun acc room =>
      acc + ((get_available_slots block room currentAttemptAssignments).length : Int))
    0
  (block.is_single_group_course, -(possible_rooms.length : Int),
    -total_available_slots, calculate_block_priority block)

/-- Python `<` on the priority tuples (lexicographic; False < True). -/
def pkeyLt (a b : PKey) : Bool :=
  if a.1 ≠ b.1 then (!a.1 && b.1)
  else if a.2.1 ≠ b.2.1 then decide (a.2.1 < b.2.1)
  else if a.2.2.1 ≠ b.2.2.1 then decide (a.2.2.1 < b.2.2.1)
  else Frac.blt a.2.2.2 b.2.2.2

/-- Strict "comes first" order realising Python's stable
`sorted(..., reverse=True)`: strictly greater key first, ties broken by
original position. -/
def pkeyEq (a b : PKey) : Bool :=
  a.1 == b.1 && a.2.1 == b.2.1 && a.2.2.1 == b.2.2.1 && Frac.beq a.2.2.2 b.2.2.2

def sortBefore (x y : Nat × PKey × Block) : Bool :=
  pkeyLt y.2.1 x.2.1 || (pkeyEq x.2.1 y.2.1 && decide (x.1 < y.1))

def sinsert {α : Type} (before : α → α → Bool) (x : α) : List α → List α
  | [] => [x]
  | y :: ys => if before x y then x :: y :: ys else y :: sinsert before x ys

def ssort {α : Type} (before : α → α → Bool) : List α → List α
  | [] => []
  | x :: xs => sinsert before x (ssort before xs)

/-- `SchedulingEngine._sort_blocks_by_priority`: a stable sort by the
priority tuple, descending. Stable sorting by a total preorder has a
unique result, so insertion sort on index-decorated elements coincides
with Python's Timsort. -/
def sort_blocks_by_priority (rm : ResourceManager) (blocks : List Block) :
    List Block :=
  let keyed := blocks.enum.map (fun p => (p.1, get_block_score rm p.2, p.2))
  (ssort sortBefore keyed).map (fun t => t.2.2)

/-- One candidate step of `_schedule_single_block`'s inner loop: check
the placement, then retain it when its soft score strictly exceeds the
best so far (`best_score` starts at -inf, so the first valid candidate
is always retained — captured by the `none` case). -/
def ssbSlotStep (block : Block) (room : Room) (m : AssignMap)
    (acc : CMCtx × Option (Frac × Assignment)) (slot : TimePreference) :
    CMCtx × Option (Frac × Assignment) :=
  let res := check_all_constraints block slot room m
  let ctx2 := res.1
  if !res.2.1 then (ctx2, acc.2)
  else
    let score := evaluate_soft_constraints ctx2 block slot room
    match acc.2 with
    | none => (ctx2, some (score, ⟨block, slot, room⟩))
    | some (best_score, best) =>
      if Frac.blt best_score score then (ctx2, some (score, ⟨block, slot, room⟩))
      else (ctx2, some (best_score, best))

/-- `SchedulingEngine._schedule_single_block`. -/
def schedule_single_block (rm : ResourceManager) (ctx : CMCtx) (block : Block)
    (current_assignments : AssignMap) : CMCtx × Option Assignment :=
  let possible_rooms := get_suitable_rooms rm block
  let final := possible_rooms.foldl
    (fun acc room =>
      (get_possible_slots block room).foldl (ssbSlotStep block room current_assignments) acc)
    (ctx, none)
  (final.1, final.2.map (fun p => p.2))

/-- `SchedulingEngine._evaluate_schedule`. -/
def evaluate_schedule (ctx : CMCtx) (assignments : AssignMap) : Frac :=
  if assignments.isEmpty then Frac.ofInt 0
  else
    (assignments.foldl
        (fun total kv =>
          total.add (evaluate_soft_constraints ctx kv.2.block kv.2.time_slot kv.2.room))
        (Frac.ofInt 0)).div
      (Frac.ofInt (assignments.length : Int))

/-- `SchedulingEngine._is_better_attempt`. -/
def is_better_attempt (best : Option SchedulingAttempt)
    (attempt : SchedulingAttempt) : Bool :=
  match best with
  | none => true
  | some b =>
    if attempt.unassigned_blocks.length < b.unassigned_blocks.length then true
    else if attempt.unassigned_blocks.length = b.unassigned_blocks.length then
      Frac.blt b.score attempt.score
    else false

/-- `SchedulingEngine._can_swap_rooms`. -/
def can_swap_rooms (assignment1 assignment2 : Assignment) : Bool :=
  if assignment1.block.required_room_type ≠ assignment2.block.required_room_type then
    false
  else if assignment1.room.capacity < assignment2.block.student_count
      || assignment2.room.capacity < assignment1.block.student_count then
    false
  else true

/-- `SchedulingEngine._can_swap_times`: both hypothetical placements are
checked against an empty assignment map; each check rebuilds the
manager state, so the posterior state is returned alongside the
verdict. -/
def can_swap_times (assignment1 assignment2 : Assignment) : CMCtx × Bool :=
  let temp_assignment1 : Assignment :=
    ⟨assignment1.block, assignment2.time_slot, assignment1.room⟩
  let temp_assignment2 : Assignment :=
    ⟨assignment2.block, assignment1.time_slot, assignment2.room⟩
  let r1 := check_all_constraints temp_assignment1.block temp_assignment1.time_slot
    temp_assignment1.room []
  let r2 := check_all_constraints temp_assignment2.block temp_assignment2.time_slot
    temp_assignment2.room []
  (r2.1, r1.2.1 && r2.2.1)

/-- `SchedulingEngine._swap_rooms` (the two keys are always present:
they come from snapshots of a map whose keys are never removed; Python
would raise `KeyError` otherwise). -/
def swap_rooms (assignments : AssignMap) (block_id1 block_id2 : String) :
    AssignMap :=
  match alGet? assignments block_id1, alGet? assignments block_id2 with
  | some a1, some a2 =>
    alInsert (alInsert assignments block_id1 ⟨a1.block, a1.time_slot, a2.room⟩)
      block_id2 ⟨a2.block, a2.time_slot, a1.room⟩
  | _, _ => assignments

/-- `SchedulingEngine._swap_times`. -/
def swap_times (assignments : AssignMap) (block_id1 block_id2 : String) :
    AssignMap :=
  match alGet? assignments block_id1, alGet? assignments block_id2 with
  | some a1, some a2 =>
    alInsert (alInsert assignments block_id1 ⟨a1.block, a2.time_slot, a1.room⟩)
      block_id2 ⟨a2.block, a1.time_slot, a2.room⟩
  | _, _ => assignments

/-- The running state of `_local_search`: the current map, its score,
the per-iteration `improved` flag, and the constraint manager's state
(mutated by every `_can_swap_times` call). -/
structure LSState where
  current_assignments : AssignMap
  current_score : Frac
  improved : Bool
  ctx : CMCtx
deriving Repr

/-- The "try swapping rooms" half of the pair loop body (a1, a2 come
from the loop snapshots, the swap itself re-reads the current map). -/
def lsRoomTry (s : LSState) (block_id1 block_id2 : String)
    (assignment1 assignment2 : Assignment) : LSState :=
  if can_swap_rooms assignment1 assignment2 then
    let new_assignments := swap_rooms s.current_assignments block_id1 block_id2
    let new_score := evaluate_schedule s.ctx new_assignments
    if Frac.blt s.current_score new_score then
      ⟨new_assignments, new_score, true, s.ctx⟩
    else s
  else s

/-- The "try swapping time slots" half of the pair loop body; the
`_can_swap_times` call rebuilds the manager state from the empty map
whether or not the swap is performed. -/
def lsTimeTry (s : LSState) (block_id1 block_id2 : String)
    (assignment1 assignment2 : Assignment) : LSState :=
  let r := can_swap_times assignment1 assignment2
  let ctx2 := r.1
  if r.2 then
    let new_assignments := swap_times s.current_assignments block_id1 block_id2
    let new_score := evaluate_schedule ctx2 new_assignments
    if Frac.blt s.current_score new_score then
      ⟨new_assignments, new_score, true, ctx2⟩
    else ⟨s.current_assignments, s.current_score, s.improved, ctx2⟩
  else ⟨s.current_assignments, s.current_score, s.improved, ctx2⟩

/-- The inner pair-loop body: skip unless `block_id1 < block_id2`
(Python `if block_id1 >= block_id2: continue`). -/
def lsInnerStep (block_id1 : String) (assignment1 : Assignment) (s : LSState)
    (kv : String × Assignment) : LSState :=
  if kv.1 ≤ block_id1 then s
  else lsTimeTry (lsRoomTry s block_id1 kv.1 assignment1 kv.2)
    block_id1 kv.1 assignment1 kv.2

/-- One outer-loop step: Python evaluates
`current_assignments.items()` afresh when the inner `for` starts, so the
inner loop iterates a snapshot of the then-current map while
`assignment1` stays the stale outer-snapshot value. -/
def lsOuterStep (s : LSState) (kv : String × Assignment) : LSState :=
  s.current_assignments.foldl (lsInnerStep kv.1 kv.2) s

/-- One `for _ in range(max_iterations)` iteration: reset `improved`,
then run the pair loops over a snapshot of the map taken at entry. -/
def lsIteration (s : LSState) : LSState :=
  let outer_items := s.current_assignments
  outer_items.foldl lsOuterStep ⟨s.current_assignments, s.current_score, false, s.ctx⟩

def lsLoop : Nat → LSState → LSState
  | 0, s => s
  | fuel + 1, s =>
    let s2 := lsIteration s
    if !s2.improved then s2 else lsLoop fuel s2

/-- `SchedulingEngine._local_search` (the deep copy is identity in a
pure embedding; the manager state threads through and is returned). -/
def local_search (ctx : CMCtx) (initial_assignments : AssignMap)
    (max_iterations : Nat := 100) : CMCtx × AssignMap :=
  let current_score := evaluate_schedule ctx initial_assignments
  let final := lsLoop max_iterations ⟨initial_assignments, current_score, false, ctx⟩
  (final.ctx, final.current_assignments)

/-- One block of the greedy construction loop inside `schedule_blocks`:
place the block if possible, recording it and removing it from the
unassigned set. -/
def constructStep (rm : ResourceManager) (acc : AssignMap × List String × CMCtx)
    (block : Block) : AssignMap × List String × CMCtx :=
  let res := schedule_single_block rm acc.2.2 block acc.1
  match res.2 with
  | some assignment =>
    (alInsert acc.1 block.id assignment, acc.2.1.erase block.id, res.1)
  | none => (acc.1, acc.2.1, res.1)

/-- The attempt loop of `schedule_blocks` (`for attempt in
range(max_attempts)` with its two early branches), threading `best` and
the constraint-manager state across attempts. -/
def attempt_loop (rm : ResourceManager) (blocks : List Block) :
    Nat → Option SchedulingAttempt → CMCtx → Option SchedulingAttempt
  | 0, best, _ => best
  | fuel + 1, best, ctx =>
    let unassigned := (blocks.map (fun b => b.id)).dedup
    let sorted_blocks := sort_blocks_by_priority rm blocks
    let step := sorted_blocks.foldl (constructStep rm) (([] : AssignMap), unassigned, ctx)
    let current_assignments := step.1
    let un := step.2.1
    let ctx1 := step.2.2
    let attempt_score := evaluate_schedule ctx1 current_assignments
    let current_attempt : SchedulingAttempt :=
      ⟨current_assignments, attempt_score, un⟩
    let best1 := if is_better_attempt best current_attempt then some current_attempt
      else best
    if un.isEmpty && Frac.ble (frac 19 20) attempt_score then best1
    else if un.isEmpty && Frac.ble (frac 7 10) attempt_score then
      let ls := local_search ctx1 current_assignments 100
      let improved_score := evaluate_schedule ls.1 ls.2
      let improved_attempt : SchedulingAttempt := ⟨ls.2, improved_score, []⟩
      let best2 := if is_better_attempt best1 improved_attempt then
        some improved_attempt else best1
      attempt_loop rm blocks fuel best2 ls.1
    else attempt_loop rm blocks fuel best1 ctx1

/-- `SchedulingEngine.schedule_blocks` started from an arbitrary
constraint-manager state (the manager is constructed once per engine,
so a second call on the same engine starts from whatever state the
first left behind). Only a `None` best attempt is falsy in
`if not self.best_attempt`, hence the `Option` match. -/
def schedule_blocks_from (rm : ResourceManager) (ctx0 : CMCtx)
    (course_assignments : List CourseAssignment) (study_plan : StudyPlan)
    (max_attempts : Nat := 100) : Except String AssignMap :=
  let blocks := convert_course_assignments_to_blocks course_assignments study_plan
  match attempt_loop rm blocks max_attempts none ctx0 with
  | none => Except.error "Could not find a valid schedule"
  | some best => Except.ok best.assignments

/-- `schedule_blocks` on a freshly constructed engine. -/
def schedule_blocks (rm : ResourceManager)
    (course_assignments : List CourseAssignment) (study_plan : StudyPlan)
    (max_attempts : Nat := 100) : Except String AssignMap :=
  schedule_blocks_from rm initialCMCtx course_assignments study_plan max_attempts

/-! ### Fraction lemmas: `Frac` denotes exact rational arithmetic -/

theorem Frac.den_ne_zero (a : Frac) : (a.den : ℚ) ≠ 0 := by
  exact_mod_cast Int.ne_of_gt a.den_pos

theorem Frac.den_cast_pos (a : Frac) : (0 : ℚ) < (a.den : ℚ) := by
  exact_mod_cast a.den_pos

theorem Frac.toRat_ofInt (n : Int) : (Frac.ofInt n).toRat = (n : ℚ) := by
  simp [Frac.ofInt, Frac.toRat]

theorem toRat_frac (n d : Int) (h : 0 < d) :
    (frac n d).toRat = (n : ℚ) / (d : ℚ) := by
  simp [frac, h, Frac.toRat]

theorem Frac.toRat_add (a b : Frac) : (a.add b).toRat = a.toRat + b.toRat := by
  have ha := a.den_ne_zero
  have hb := b.den_ne_zero
  simp only [Frac.add, Frac.toRat]
  push_cast
  field_simp

theorem Frac.toRat_mul (a b : Frac) : (a.mul b).toRat = a.toRat * b.toRat := by
  have ha := a.den_ne_zero
  have hb := b.den_ne_zero
  simp only [Frac.mul, Frac.toRat]
  push_cast
  field_simp

theorem Frac.toRat_div (a b : Frac) : (a.div b).toRat = a.toRat / b.toRat := by
  have ha := a.den_ne_zero
  rcases lt_trichotomy b.num 0 with hneg | hzero | hpos
  · have : ¬ (0 < b.num) := by omega
    simp only [Frac.div, this, hneg, dif_neg, dif_pos, Frac.toRat]
    have hb : ((b.num : ℚ)) ≠ 0 := by exact_mod_cast Int.ne_of_lt hneg
    have hbd := b.den_ne_zero
    push_cast
    field_simp
  · have h1 : ¬ (0 < b.num) := by omega
    have h2 : ¬ (b.num < 0) := by omega
    simp only [Frac.div, h1, h2, dif_neg, Frac.toRat, hzero]
    norm_num
  · simp only [Frac.div, hpos, dif_pos, Frac.toRat]
    have hb : ((b.num : ℚ)) ≠ 0 := by exact_mod_cast Int.ne_of_gt hpos
    have hbd := b.den_ne_zero
    push_cast
    field_simp

theorem Frac.ble_iff (a b : Frac) : a.ble b = true ↔ a.toRat ≤ b.toRat := by
  unfold Frac.ble Frac.toRat
  rw [decide_eq_true_iff, div_le_div_iff₀ a.den_cast_pos b.den_cast_pos]
  constructor
  · intro h; exact_mod_cast h
  · intro h; exact_mod_cast h

theorem Frac.blt_iff (a b : Frac) : a.blt b = true ↔ a.toRat < b.toRat := by
  unfold Frac.blt Frac.toRat
  rw [decide_eq_true_iff, div_lt_div_iff₀ a.den_cast_pos b.den_cast_pos]
  constructor
  · intro h; exact_mod_cast h
  · intro h; exact_mod_cast h

theorem Frac.beq_iff (a b : Frac) : a.beq b = true ↔ a.toRat = b.toRat := by
  unfold Frac.beq Frac.toRat
  rw [decide_eq_true_iff, div_eq_div_iff a.den_ne_zero b.den_ne_zero]
  constructor
  · intro h; exact_mod_cast h
  · intro h; exact_mod_cast h

theorem Frac.ble_false_iff (a b : Frac) : a.ble b = false ↔ b.toRat < a.toRat := by
  rw [← Bool.not_eq_true, not_iff_comm, Frac.ble_iff, not_lt]

theorem Frac.blt_false_iff (a b : Frac) : a.blt b = false ↔ b.toRat ≤ a.toRat := by
  rw [← Bool.not_eq_true, not_iff_comm, Frac.blt_iff, not_le]

/-! ### Association-list (Python dict) lemmas -/

theorem alGet?_alInsert {κ α : Type} [DecidableEq κ] (m : List (κ × α)) (k k' : κ)
    (v : α) :
    alGet? (alInsert m k v) k' = if k' = k then some v else alGet? m k' := by
  induction m with
  | nil => by_cases h : k' = k <;> simp [alInsert, alGet?, h, Ne.symm]
  | cons hd tl ih =>
    obtain ⟨k'', v''⟩ := hd
    by_cases h1 : k'' = k
    · subst h1
      by_cases h2 : k' = k''
      · subst h2; simp [alInsert, alGet?]
      · simp [alInsert, alGet?, h2, Ne.symm h2]
    · by_cases h2 : k'' = k'
      · subst h2
        simp [alInsert, h1, alGet?]
      · simp [alInsert, alGet?, h1, h2, ih]

theorem mem_alInsert {κ α : Type} [DecidableEq κ] (m : List (κ × α)) (k : κ)
    (v : α) (kv : κ × α) :
    kv ∈ alInsert m k v → kv = (k, v) ∨ kv ∈ m := by
  induction m with
  | nil => intro h; simp [alInsert] at h; left; exact h
  | cons hd tl ih =>
    intro h
    by_cases h1 : hd.1 = k
    · obtain ⟨k'', v''⟩ := hd
      simp only [alInsert] at h
      rw [if_pos h1] at h
      rcases List.mem_cons.mp h with h2 | h2
      · left; exact h2
      · right; exact List.mem_cons_of_mem _ h2
    · obtain ⟨k'', v''⟩ := hd
      simp only [alInsert] at h
      rw [if_neg h1] at h
      rcases List.mem_cons.mp h with h2 | h2
      · right; exact h2 ▸ List.mem_cons_self _ _
      · rcases ih h2 with h3 | h3
        · left; exact h3
        · right; exact List.mem_cons_of_mem _ h3

theorem alContains_alInsert {κ α : Type} [DecidableEq κ] (m : List (κ × α))
    (k k' : κ) (v : α) :
    alContains (alInsert m k v) k' = true ↔ k' = k ∨ alContains m k' = true := by
  unfold alContains
  rw [alGet?_alInsert]
  by_cases h : k' = k <;> simp [h]

theorem alContains_iff_alGetD_ne {κ α : Type} [DecidableEq κ]
    (m : List (κ × α)) (k : κ) :
    alContains m k = true ↔ (alGet? m k).isSome = true := Iff.rfl

/-! ### Semantics of the rebuilt state index -/

/-- The (day, start_time) key under which an assignment is indexed. -/
def slotKey (a : Assignment) : Day × TimeOfDay :=
  (a.time_slot.day, a.time_slot.start_time)

/-- The (academic_list, day, start_time) study-plan key of an
assignment. -/
def spKey (a : Assignment) : String × Day × TimeOfDay :=
  (a.block.academic_list, a.time_slot.day, a.time_slot.start_time)

/-- Room `rid` is booked at `sk` in the state index (exactly what
`check_room_booking` reads). -/
def roomBooked (st : SchedulerState) (rid : Int) (sk : Day × TimeOfDay) : Prop :=
  alContains (alGetD st.room_bookings rid []) sk = true

theorem roomBooked_step (st : SchedulerState) (bid : String) (a : Assignment)
    (rid : Int) (sk : Day × TimeOfDay) :
    roomBooked (updateStateStep st bid a) rid sk ↔
      (rid = a.room.id ∧ sk = slotKey a) ∨ roomBooked st rid sk := by
  unfold roomBooked updateStateStep alGetD slotKey
  simp only [alGet?_alInsert]
  by_cases h : rid = a.room.id
  · subst h
    simp [alContains_alInsert]
  · simp only [if_neg h]
    tauto

theorem roomBooked_foldl (l : List (String × Assignment)) (st0 : SchedulerState)
    (rid : Int) (sk : Day × TimeOfDay) :
    roomBooked (l.foldl (fun st kv => updateStateStep st kv.1 kv.2) st0) rid sk ↔
      roomBooked st0 rid sk ∨
        ∃ kv ∈ l, rid = kv.2.room.id ∧ sk = slotKey kv.2 := by
  induction l generalizing st0 with
  | nil => simp
  | cons hd tl ih =>
    simp only [List.foldl_cons, ih, roomBooked_step, List.mem_cons]
    constructor
    · rintro ((h1 | h1) | ⟨kv, hkv, h2, h3⟩)
      · exact Or.inr ⟨hd, Or.inl rfl, h1.1, h1.2⟩
      · exact Or.inl h1
      · exact Or.inr ⟨kv, Or.inr hkv, h2, h3⟩
    · rintro (h1 | ⟨kv, hkv | hkv, h2, h3⟩)
      · exact Or.inl (Or.inr h1)
      · subst hkv; exact Or.inl (Or.inl ⟨h2, h3⟩)
      · exact Or.inr ⟨kv, hkv, h2, h3⟩

theorem roomBooked_update_state (m : AssignMap) (rid : Int)
    (sk : Day × TimeOfDay) :
    roomBooked (update_state m).state rid sk ↔
      ∃ kv ∈ m, rid = kv.2.room.id ∧ sk = slotKey kv.2 := by
  unfold update_state
  rw [roomBooked_foldl]
  simp [roomBooked, SchedulerState.create_empty, alGetD, alGet?, alContains]

/-- An id recorded under study-plan key `K` in the state index. -/
def spRecorded (st : SchedulerState) (K : String × Day × TimeOfDay)
    (id : String) : Prop :=
  id ∈ alGetD st.study_plan_slots K []

theorem spRecorded_step (st : SchedulerState) (bid : String) (a : Assignment)
    (K : String × Day × TimeOfDay) (id : String) :
    spRecorded (updateStateStep st bid a) K id ↔
      (K = spKey a ∧ id = bid) ∨ spRecorded st K id := by
  unfold spRecorded updateStateStep alGetD spKey
  simp only [alGet?_alInsert]
  by_cases h : K = spKey a
  · unfold spKey at h
    subst h
    simp
    tauto
  · unfold spKey at h
    simp only [if_neg h]
    tauto

theorem spRecorded_foldl (l : List (String × Assignment)) (st0 : SchedulerState)
    (K : String × Day × TimeOfDay) (id : String) :
    spRecorded (l.foldl (fun st kv => updateStateStep st kv.1 kv.2) st0) K id ↔
      spRecorded st0 K id ∨ ∃ kv ∈ l, K = spKey kv.2 ∧ id = kv.1 := by
  induction l generalizing st0 with
  | nil => simp
  | cons hd tl ih =>
    simp only [List.foldl_cons, ih, spRecorded_step, List.mem_cons]
    constructor
    · rintro ((h1 | h1) | ⟨kv, hkv, h2, h3⟩)
      · exact Or.inr ⟨hd, Or.inl rfl, h1.1, h1.2⟩
      · exact Or.inl h1
      · exact Or.inr ⟨kv, Or.inr hkv, h2, h3⟩
    · rintro (h1 | ⟨kv, hkv | hkv, h2, h3⟩)
      · exact Or.inl (Or.inr h1)
      · subst hkv; exact Or.inl (Or.inl ⟨h2, h3⟩)
      · exact Or.inr ⟨kv, hkv, h2, h3⟩

theorem spRecorded_update_state (m : AssignMap)
    (K : String × Day × TimeOfDay) (id : String) :
    spRecorded (update_state m).state K id ↔
      ∃ kv ∈ m, K = spKey kv.2 ∧ id = kv.1 := by
  unfold update_state
  rw [spRecorded_foldl]
  simp [spRecorded, SchedulerState.create_empty, alGetD, alGet?]

/-- Presence of a study-plan key in the index. -/
theorem spContains_step (st : SchedulerState) (bid : String) (a : Assignment)
    (K : String × Day × TimeOfDay) :
    alContains (updateStateStep st bid a).study_plan_slots K = true ↔
      K = spKey a ∨ alContains st.study_plan_slots K = true := by
  unfold updateStateStep alContains
  simp only [alGet?_alInsert]
  by_cases h : K = spKey a
  · unfold spKey at h
    subst h
    simp [spKey]
  · unfold spKey at h
    simp [h, spKey]

theorem spContains_foldl (l : List (String × Assignment)) (st0 : SchedulerState)
    (K : String × Day × TimeOfDay) :
    alContains
        ((l.foldl (fun st kv => updateStateStep st kv.1 kv.2) st0)).study_plan_slots
        K = true ↔
      alContains st0.study_plan_slots K = true ∨ ∃ kv ∈ l, K = spKey kv.2 := by
  induction l generalizing st0 with
  | nil => simp
  | cons hd tl ih =>
    simp only [List.foldl_cons, ih, spContains_step, List.mem_cons]
    constructor
    · rintro ((h1 | h1) | ⟨kv, hkv, h2⟩)
      · exact Or.inr ⟨hd, Or.inl rfl, h1⟩
      · exact Or.inl h1
      · exact Or.inr ⟨kv, Or.inr hkv, h2⟩
    · rintro (h1 | ⟨kv, hkv | hkv, h2⟩)
      · exact Or.inl (Or.inr h1)
      · subst hkv; exact Or.inl (Or.inl h2)
      · exact Or.inr ⟨kv, hkv, h2⟩

theorem spContains_update_state (m : AssignMap) (K : String × Day × TimeOfDay) :
    alContains (update_state m).state.study_plan_slots K = true ↔
      ∃ kv ∈ m, K = spKey kv.2 := by
  unfold update_state
  rw [spContains_foldl]
  simp [SchedulerState.create_empty, alContains, alGet?]

/-- `check_room_booking` succeeds exactly when the rebuilt index has no
booking for this room at this (day, start). -/
theorem check_room_booking_iff (ctx : CMCtx) (b : Block) (s : TimePreference)
    (r : Room) :
    check_room_booking ctx b s r = true ↔
      ¬ roomBooked ctx.state r.id (s.day, s.start_time) := by
  unfold check_room_booking roomBooked
  simp

/-- C4. `check_all_constraints` first rebuilds the state index from the
passed-in assignments, then evaluates the five registered hard
constraints in registration order (room booking, staff booking, room
availability, single-group parallelism, lab requirements), returning
`(false, description-of-first-failure)` or `(true, none)`; being a total
function into a pair, it signals violations as values, never as
exceptions. -/
theorem c4_check_all_constraints_spec (block : Block) (slot : TimePreference)
    (room : Room) (m : AssignMap) :
    check_all_constraints block slot room m =
      (update_state m,
        let ctx := update_state m
        if check_room_booking ctx block slot room = false then
          (false, some "No double room booking")
        else if check_staff_booking ctx block slot room = false then
          (false, some "No double staff booking")
        else if check_room_availability ctx block slot room = false then
          (false, some "Room must be available in the given time slot")
        else if check_single_group_conflict ctx block slot room = false then
          (false, some "Single group courses cannot have parallel sessions")
        else if check_lab_requirements ctx block slot room = false then
          (false, some "Lab specialization and preferences must be met")
        else (true, none)) := by
  unfold check_all_constraints
  simp only [hard_constraints, check_all_constraints.go]
  cases h1 : check_room_booking (update_state m) block slot room <;>
    cases h2 : check_staff_booking (update_state m) block slot room <;>
      cases h3 : check_room_availability (update_state m) block slot room <;>
        cases h4 : check_single_group_conflict (update_state m) block slot room <;>
          cases h5 : check_lab_requirements (update_state m) block slot room <;>
            simp [h1, h2, h3, h4, h5]

/-! ### Score bounds -/

theorem evaluate_gaps_cases (ctx : CMCtx) (b : Block) (s : TimePreference)
    (r : Room) :
    evaluate_gaps ctx b s r = Frac.ofInt 1 ∨ evaluate_gaps ctx b s r = frac 1 2 ∨
      evaluate_gaps ctx b s r = Frac.ofInt 0 := by
  unfold evaluate_gaps
  dsimp only
  cases h1 : alGet? ctx.state.level_slots (b.academic_list, b.academic_level) with
  | none => exact Or.inl rfl
  | some byDay =>
    dsimp only
    cases h2 : alGet? byDay s.day with
    | none => exact Or.inl rfl
    | some raw =>
      dsimp only
      split
      · exact Or.inl rfl
      · split
        · exact Or.inr (Or.inl rfl)
        · exact Or.inr (Or.inr rfl)

theorem evaluate_room_capacity_cases (ctx : CMCtx) (b : Block)
    (s : TimePreference) (r : Room) :
    evaluate_room_capacity ctx b s r = Frac.ofInt 1 ∨
      evaluate_room_capacity ctx b s r = frac 7 10 ∨
      evaluate_room_capacity ctx b s r = frac 3 10 ∨
      evaluate_room_capacity ctx b s r = Frac.ofInt 0 := by
  unfold evaluate_room_capacity
  dsimp only
  split
  · exact Or.inl rfl
  · split
    · exact Or.inr (Or.inl rfl)
    · split
      · exact Or.inr (Or.inl rfl)
      · split
        · exact Or.inr (Or.inr (Or.inl rfl))
        · exact Or.inr (Or.inr (Or.inr rfl))

theorem evaluate_lecturer_preferences_cases (ctx : CMCtx) (b : Block)
    (s : TimePreference) (r : Room) :
    evaluate_lecturer_preferences ctx b s r = Frac.ofInt 1 ∨
      evaluate_lecturer_preferences ctx b s r = Frac.ofInt 0 := by
  unfold evaluate_lecturer_preferences
  split
  · exact Or.inr rfl
  · split
    · exact Or.inl rfl
    · exact Or.inr rfl

theorem evaluate_ta_preferences_cases (ctx : CMCtx) (b : Block)
    (s : TimePreference) (r : Room) :
    evaluate_ta_preferences ctx b s r = Frac.ofInt 1 ∨
      evaluate_ta_preferences ctx b s r = Frac.ofInt 0 := by
  unfold evaluate_ta_preferences
  split
  · exact Or.inr rfl
  · split
    · exact Or.inl rfl
    · exact Or.inr rfl

theorem toRat_frac_half : (frac 1 2).toRat = 1/2 := by
  rw [toRat_frac 1 2 (by norm_num)]; norm_num

theorem toRat_frac_7_10 : (frac 7 10).toRat = 7/10 := by
  rw [toRat_frac 7 10 (by norm_num)]; norm_num

theorem toRat_frac_3_10 : (frac 3 10).toRat = 3/10 := by
  rw [toRat_frac 3 10 (by norm_num)]; norm_num

theorem toRat_frac_3_2 : (frac 3 2).toRat = 3/2 := by
  rw [toRat_frac 3 2 (by norm_num)]; norm_num

theorem evaluate_gaps_toRat_nonneg (ctx : CMCtx) (b : Block)
    (s : TimePreference) (r : Room) : 0 ≤ (evaluate_gaps ctx b s r).toRat := by
  rcases evaluate_gaps_cases ctx b s r with h | h | h <;>
    rw [h] <;> simp [Frac.toRat_ofInt, toRat_frac_half] <;> norm_num

theorem evaluate_gaps_toRat_le_one (ctx : CMCtx) (b : Block)
    (s : TimePreference) (r : Room) : (evaluate_gaps ctx b s r).toRat ≤ 1 := by
  rcases evaluate_gaps_cases ctx b s r with h | h | h <;>
    rw [h] <;> simp [Frac.toRat_ofInt, toRat_frac_half] <;> norm_num

theorem evaluate_room_capacity_toRat_nonneg (ctx : CMCtx) (b : Block)
    (s : TimePreference) (r : Room) :
    0 ≤ (evaluate_room_capacity ctx b s r).toRat := by
  rcases evaluate_room_capacity_cases ctx b s r with h | h | h | h <;>
    rw [h] <;> simp [Frac.toRat_ofInt, toRat_frac_7_10, toRat_frac_3_10] <;> norm_num

theorem evaluate_lecturer_preferences_toRat_nonneg (ctx : CMCtx) (b : Block)
    (s : TimePreference) (r : Room) :
    0 ≤ (evaluate_lecturer_preferences ctx b s r).toRat := by
  rcases evaluate_lecturer_preferences_cases ctx b s r with h | h <;>
    rw [h] <;> simp [Frac.toRat_ofInt]

theorem evaluate_ta_preferences_toRat_nonneg (ctx : CMCtx) (b : Block)
    (s : TimePreference) (r : Room) :
    0 ≤ (evaluate_ta_preferences ctx b s r).toRat := by
  rcases evaluate_ta_preferences_cases ctx b s r with h | h <;>
    rw [h] <;> simp [Frac.toRat_ofInt]

theorem evaluate_lecturer_preferences_mem (ctx : CMCtx) (b : Block)
    (s : TimePreference) (r : Room)
    (h : s ∈ b.staff_member.timing_preferences)
    (hrole : b.staff_member.role = StaffRole.lecturer) :
    evaluate_lecturer_preferences ctx b s r = Frac.ofInt 1 := by
  unfold evaluate_lecturer_preferences
  rw [if_neg (by simp [hrole]), if_pos]
  exact List.any_eq_true.mpr ⟨s, h, by simp⟩

theorem evaluate_ta_preferences_mem (ctx : CMCtx) (b : Block)
    (s : TimePreference) (r : Room)
    (h : s ∈ b.staff_member.timing_preferences)
    (hrole : b.staff_member.role = StaffRole.teachingAssistant) :
    evaluate_ta_preferences ctx b s r = Frac.ofInt 1 := by
  unfold evaluate_ta_preferences
  rw [if_neg (by simp [hrole]), if_pos]
  exact List.any_eq_true.mpr ⟨s, h, by simp⟩

theorem evaluate_soft_constraints_eq (ctx : CMCtx) (b : Block)
    (s : TimePreference) (r : Room) :
    evaluate_soft_constraints ctx b s r =
      ((((Frac.ofInt 0).add
            ((evaluate_lecturer_preferences ctx b s r).mul (Frac.ofInt 5))).add
          ((evaluate_ta_preferences ctx b s r).mul (Frac.ofInt 3))).add
        ((evaluate_gaps ctx b s r).mul (Frac.ofInt 2))).add
        ((evaluate_room_capacity ctx b s r).mul (frac 3 2)) := rfl

theorem evaluate_soft_constraints_toRat (ctx : CMCtx) (b : Block)
    (s : TimePreference) (r : Room) :
    (evaluate_soft_constraints ctx b s r).toRat =
      5 * (evaluate_lecturer_preferences ctx b s r).toRat
        + 3 * (evaluate_ta_preferences ctx b s r).toRat
        + 2 * (evaluate_gaps ctx b s r).toRat
        + 3/2 * (evaluate_room_capacity ctx b s r).toRat := by
  rw [evaluate_soft_constraints_eq]
  simp only [Frac.toRat_add, Frac.toRat_mul, Frac.toRat_ofInt, toRat_frac_3_2]
  push_cast
  ring

/-- Any placement whose slot is literally one of the staff member's
timing-preference entries scores at least 3 (the TA-preference weight):
the matching preference contributes its full weight, and the remaining
soft scores are nonnegative. -/
theorem evaluate_soft_constraints_ge_three (ctx : CMCtx) (b : Block)
    (s : TimePreference) (r : Room)
    (h : s ∈ b.staff_member.timing_preferences) :
    3 ≤ (evaluate_soft_constraints ctx b s r).toRat := by
  rw [evaluate_soft_constraints_toRat]
  have hg0 := evaluate_gaps_toRat_nonneg ctx b s r
  have hc0 := evaluate_room_capacity_toRat_nonneg ctx b s r
  have hl0 := evaluate_lecturer_preferences_toRat_nonneg ctx b s r
  have ht0 := evaluate_ta_preferences_toRat_nonneg ctx b s r
  cases hrole : b.staff_member.role with
  | lecturer =>
    rw [evaluate_lecturer_preferences_mem ctx b s r h hrole]
    rw [Frac.toRat_ofInt]
    push_cast
    linarith
  | teachingAssistant =>
    rw [evaluate_ta_preferences_mem ctx b s r h hrole]
    rw [Frac.toRat_ofInt]
    push_cast
    linarith

theorem foldl_add_toRat (f : String × Assignment → Frac)
    (l : List (String × Assignment)) (z : Frac) :
    (l.foldl (fun t kv => t.add (f kv)) z).toRat =
      z.toRat + (l.map (fun kv => (f kv).toRat)).sum := by
  induction l generalizing z with
  | nil => simp
  | cons hd tl ih =>
    simp only [List.foldl_cons, List.map_cons, List.sum_cons, ih, Frac.toRat_add]
    ring

theorem evaluate_schedule_empty (ctx : CMCtx) :
    evaluate_schedule ctx [] = Frac.ofInt 0 := rfl

theorem evaluate_schedule_toRat (ctx : CMCtx) (m : AssignMap) (hm : m ≠ []) :
    (evaluate_schedule ctx m).toRat =
      (m.map (fun kv =>
          (evaluate_soft_constraints ctx kv.2.block kv.2.time_slot kv.2.room).toRat)).sum
        / (m.length : ℚ) := by
  unfold evaluate_schedule
  rw [if_neg (by simp [hm])]
  rw [Frac.toRat_div, foldl_add_toRat]
  rw [Frac.toRat_ofInt, Frac.toRat_ofInt]
  push_cast
  ring_nf

theorem list_sum_ge_three (l : List ℚ) (h : ∀ x ∈ l, 3 ≤ x) :
    3 * l.length ≤ l.sum := by
  induction l with
  | nil => simp
  | cons hd tl ih =>
    have h1 := h hd (List.mem_cons_self hd tl)
    have h2 := ih (fun x hx => h x (List.mem_cons_of_mem hd hx))
    simp only [List.length_cons, List.sum_cons]
    push_cast
    linarith

/-- A non-empty assignment map in which every slot is one of its staff
member's preference entries has average soft score at least 3, hence
strictly more than the 0.95 perfect-schedule threshold. -/
theorem evaluate_schedule_ge_three (ctx : CMCtx) (m : AssignMap)
    (hPref : ∀ kv ∈ m,
      kv.2.time_slot ∈ kv.2.block.staff_member.timing_preferences)
    (hm : m ≠ []) :
    3 ≤ (evaluate_schedule ctx m).toRat := by
  rw [evaluate_schedule_toRat ctx m hm]
  have hlen : (0 : ℚ) < (m.length : ℚ) := by
    exact_mod_cast List.length_pos.mpr hm
  rw [le_div_iff₀ hlen]
  have := list_sum_ge_three (m.map (fun kv =>
      (evaluate_soft_constraints ctx kv.2.block kv.2.time_slot kv.2.room).toRat))
    (by
      intro x hx
      rcases List.mem_map.mp hx with ⟨kv, hkv, rfl⟩
      exact evaluate_soft_constraints_ge_three ctx kv.2.block kv.2.time_slot
        kv.2.room (hPref kv hkv))
  simp only [List.length_map] at this
  linarith

/-! ### Monotonicity of `_local_search` (claim C10) -/

/-- After any `_can_swap_times` call the manager state is the one
rebuilt from the empty map. -/
theorem can_swap_times_fst (a1 a2 : Assignment) :
    (can_swap_times a1 a2).1 = update_state [] := rfl

/-- Against the empty-rebuilt state every gap score is the maximal 1.0,
so re-evaluating any map there can only increase its score. -/
theorem evaluate_gaps_empty_state (b : Block) (s : TimePreference) (r : Room) :
    evaluate_gaps (update_state []) b s r = Frac.ofInt 1 := rfl

theorem evaluate_soft_constraints_empty_state_mono (ctx : CMCtx) (b : Block)
    (s : TimePreference) (r : Room) :
    (evaluate_soft_constraints ctx b s r).toRat ≤
      (evaluate_soft_constraints (update_state []) b s r).toRat := by
  rw [evaluate_soft_constraints_toRat, evaluate_soft_constraints_toRat]
  have h1 : evaluate_lecturer_preferences (update_state []) b s r =
      evaluate_lecturer_preferences ctx b s r := rfl
  have h2 : evaluate_ta_preferences (update_state []) b s r =
      evaluate_ta_preferences ctx b s r := rfl
  have h3 : evaluate_room_capacity (update_state []) b s r =
      evaluate_room_capacity ctx b s r := rfl
  rw [h1, h2, h3, evaluate_gaps_empty_state, Frac.toRat_ofInt]
  have := evaluate_gaps_toRat_le_one ctx b s r
  push_cast
  linarith

theorem evaluate_schedule_empty_state_mono (ctx : CMCtx) (m : AssignMap) :
    (evaluate_schedule ctx m).toRat ≤
      (evaluate_schedule (update_state []) m).toRat := by
  rcases eq_or_ne m [] with rfl | hm
  · simp [evaluate_schedule_empty]
  · rw [evaluate_schedule_toRat ctx m hm, evaluate_schedule_toRat _ m hm]
    have hlen : (0 : ℚ) < (m.length : ℚ) := by
      exact_mod_cast List.length_pos.mpr hm
    gcongr
    exact List.sum_le_sum (fun kv _ =>
      evaluate_soft_constraints_empty_state_mono ctx kv.2.block kv.2.time_slot
        kv.2.room)

/-- The local-search loop invariant: the running score never drops below
the entry score, and it never exceeds what re-evaluating the current map
in the current manager state yields (each committed swap recomputed it
there; intervening `_can_swap_times` calls only wipe the state, which
can only raise gap scores). -/
def LSInv (s0 : ℚ) (s : LSState) : Prop :=
  s0 ≤ s.current_score.toRat ∧
    s.current_score.toRat ≤ (evaluate_schedule s.ctx s.current_assignments).toRat

theorem foldl_preserve {α β : Type} (P : β → Prop) (f : β → α → β)
    (h : ∀ b a, P b → P (f b a)) :
    ∀ (l : List α) (b : β), P b → P (l.foldl f b) := by
  intro l
  induction l with
  | nil => intro b hb; exact hb
  | cons hd tl ih => intro b hb; exact ih _ (h b hd hb)

theorem lsRoomTry_inv (s0 : ℚ) (s : LSState) (id1 id2 : String)
    (a1 a2 : Assignment) (h : LSInv s0 s) :
    LSInv s0 (lsRoomTry s id1 id2 a1 a2) := by
  unfold lsRoomTry
  dsimp only
  split
  · split
    · rename_i hlt
      have hlt' := (Frac.blt_iff _ _).mp hlt
      exact ⟨le_trans h.1 (le_of_lt hlt'), le_refl _⟩
    · exact h
  · exact h

theorem lsTimeTry_inv (s0 : ℚ) (s : LSState) (id1 id2 : String)
    (a1 a2 : Assignment) (h : LSInv s0 s) :
    LSInv s0 (lsTimeTry s id1 id2 a1 a2) := by
  have hctx : (can_swap_times a1 a2).1 = update_state [] := rfl
  unfold lsTimeTry
  dsimp only
  split
  · split
    · rename_i hlt
      have hlt' := (Frac.blt_iff _ _).mp hlt
      exact ⟨le_trans h.1 (le_of_lt hlt'), le_refl _⟩
    · refine ⟨h.1, ?_⟩
      show s.current_score.toRat ≤
        (evaluate_schedule (can_swap_times a1 a2).1 s.current_assignments).toRat
      rw [hctx]
      exact le_trans h.2 (evaluate_schedule_empty_state_mono s.ctx s.current_assignments)
  · refine ⟨h.1, ?_⟩
    show s.current_score.toRat ≤
      (evaluate_schedule (can_swap_times a1 a2).1 s.current_assignments).toRat
    rw [hctx]
    exact le_trans h.2 (evaluate_schedule_empty_state_mono s.ctx s.current_assignments)

theorem lsInnerStep_inv (s0 : ℚ) (id1 : String) (a1 : Assignment) (s : LSState)
    (kv : String × Assignment) (h : LSInv s0 s) :
    LSInv s0 (lsInnerStep id1 a1 s kv) := by
  unfold lsInnerStep
  split
  · exact h
  · exact lsTimeTry_inv s0 _ id1 kv.1 a1 kv.2 (lsRoomTry_inv s0 s id1 kv.1 a1 kv.2 h)

theorem lsOuterStep_inv (s0 : ℚ) (s : LSState) (kv : String × Assignment)
    (h : LSInv s0 s) : LSInv s0 (lsOuterStep s kv) := by
  unfold lsOuterStep
  exact foldl_preserve (LSInv s0) _
    (fun b a hb => lsInnerStep_inv s0 kv.1 kv.2 b a hb) _ _ h

theorem lsIteration_inv (s0 : ℚ) (s : LSState) (h : LSInv s0 s) :
    LSInv s0 (lsIteration s) := by
  unfold lsIteration
  exact foldl_preserve (LSInv s0) _
    (fun b a hb => lsOuterStep_inv s0 b a hb) _ _ ⟨h.1, h.2⟩

theorem lsLoop_inv (s0 : ℚ) (fuel : Nat) (s : LSState) (h : LSInv s0 s) :
    LSInv s0 (lsLoop fuel s) := by
  induction fuel generalizing s with
  | zero => exact h
  | succ n ih =>
    unfold lsLoop
    dsimp only
    split
    · exact lsIteration_inv s0 s h
    · exact ih _ (lsIteration_inv s0 s h)

/-- C10. `_local_search` never degrades schedule quality: evaluating the
returned map in the posterior constraint-manager state scores at least
what the input map scored in the entry state, for every assignment map
and iteration budget. Every room or time swap is committed only when the
recomputed total score strictly increases, and the only other change to
the comparison baseline — `_can_swap_times` rebuilding the manager state
from the empty map — can only raise gap scores. -/
theorem c10_local_search_monotone (ctx : CMCtx) (initial_assignments : AssignMap)
    (max_iterations : Nat) :
    (evaluate_schedule ctx initial_assignments).toRat ≤
      (evaluate_schedule (local_search ctx initial_assignments max_iterations).1
          (local_search ctx initial_assignments max_iterations).2).toRat := by
  have h0 : LSInv (evaluate_schedule ctx initial_assignments).toRat
      ⟨initial_assignments, evaluate_schedule ctx initial_assignments, false, ctx⟩ :=
    ⟨le_refl _, le_refl _⟩
  have h := lsLoop_inv _ max_iterations _ h0
  exact le_trans h.1 h.2

/-! ### The gap score (claim C7) -/

theorem tinsert_perm (x : TimeOfDay) (l : List TimeOfDay) :
    (tinsert x l).Perm (x :: l) := by
  induction l with
  | nil => exact List.Perm.refl _
  | cons y ys ih =>
    unfold tinsert
    split
    · exact List.Perm.refl _
    · exact List.Perm.trans (List.Perm.cons y ih) (List.Perm.swap x y ys)

theorem tsort_perm (l : List TimeOfDay) : (tsort l).Perm l := by
  induction l with
  | nil => exact List.Perm.refl _
  | cons x xs ih =>
    exact List.Perm.trans (tinsert_perm x (tsort xs)) (List.Perm.cons x ih)

theorem foldl_min_mem (l : List Int) : ∀ (x : Int), l.foldl min x ∈ x :: l := by
  induction l with
  | nil => intro x; simp
  | cons y ys ih =>
    intro x
    have h := ih (min x y)
    rw [List.foldl_cons]
    rcases List.mem_cons.mp h with h1 | h1
    · rcases min_choice x y with h2 | h2
      · rw [h1, h2]; exact List.mem_cons_self _ _
      · rw [h1, h2]; exact List.mem_cons_of_mem _ (List.mem_cons_self _ _)
    · exact List.mem_cons_of_mem _ (List.mem_cons_of_mem _ h1)

theorem foldl_min_le_all (l : List Int) :
    ∀ (x : Int), ∀ y ∈ x :: l, l.foldl min x ≤ y := by
  induction l with
  | nil =>
    intro x y hy
    rw [List.mem_singleton] at hy
    rw [hy]
    exact le_refl x
  | cons z zs ih =>
    intro x y hy
    rw [List.foldl_cons]
    have hseed : zs.foldl min (min x z) ≤ min x z :=
      ih (min x z) (min x z) (List.mem_cons_self _ _)
    rcases List.mem_cons.mp hy with h1 | h1
    · rw [h1]; exact le_trans hseed (min_le_left x z)
    · rcases List.mem_cons.mp h1 with h2 | h2
      · rw [h2]; exact le_trans hseed (min_le_right x z)
      · exact ih (min x z) y (List.mem_cons_of_mem _ h2)

theorem foldl_max_mem (l : List Int) : ∀ (x : Int), l.foldl max x ∈ x :: l := by
  induction l with
  | nil => intro x; simp
  | cons y ys ih =>
    intro x
    have h := ih (max x y)
    rw [List.foldl_cons]
    rcases List.mem_cons.mp h with h1 | h1
    · rcases max_choice x y with h2 | h2
      · rw [h1, h2]; exact List.mem_cons_self _ _
      · rw [h1, h2]; exact List.mem_cons_of_mem _ (List.mem_cons_self _ _)
    · exact List.mem_cons_of_mem _ (List.mem_cons_of_mem _ h1)

theorem foldl_max_ge_all (l : List Int) :
    ∀ (x : Int), ∀ y ∈ x :: l, y ≤ l.foldl max x := by
  induction l with
  | nil =>
    intro x y hy
    rw [List.mem_singleton] at hy
    rw [hy]
    exact le_refl x
  | cons z zs ih =>
    intro x y hy
    rw [List.foldl_cons]
    have hseed : max x z ≤ zs.foldl max (max x z) :=
      ih (max x z) (max x z) (List.mem_cons_self _ _)
    rcases List.mem_cons.mp hy with h1 | h1
    · rw [h1]; exact le_trans (le_max_left x z) hseed
    · rcases List.mem_cons.mp h1 with h2 | h2
      · rw [h2]; exact le_trans (le_max_right x z) hseed
      · exact ih (max x z) y (List.mem_cons_of_mem _ h2)

/-- The bucketing step of the claim: ≤ 2h ⇒ 1.0, ≤ 4h ⇒ 0.5, else 0. -/
def claim_gap_bucket (g : Int) : Frac :=
  if g ≤ 2 then Frac.ofInt 1 else if g ≤ 4 then frac 1 2 else Frac.ofInt 0

/-- The gap measure as the claim states it: the maximum over the
hour-gaps between consecutive existing start times (in sorted order) and
the absolute hour-distances from the candidate start to the earliest and
latest existing start times. -/
def claim_max_gap (existing : List TimeOfDay) (cand : TimeOfDay) : Int :=
  let sorted := tsort existing
  let consecutive := (sorted.zip sorted.tail).map
    (fun p => (p.2.hour : Int) - (p.1.hour : Int))
  let hs := existing.map (fun t => (t.hour : Int))
  let before := |(cand.hour : Int) - (hs.min?.getD 0)|
  let after := |(cand.hour : Int) - (hs.max?.getD 0)|
  (consecutive ++ [before, after]).foldl max 0

theorem code_min_eq_claim_min (t : TimeOfDay) (ts' ts : List TimeOfDay)
    (hperm : (t :: ts').Perm ts) :
    ((t :: ts').map (fun u => (u.hour : Int))).foldl min (t.hour : Int) =
      ((ts.map (fun u => (u.hour : Int))).min?).getD 0 := by
  have hmem : ∀ x : Int,
      x ∈ (t :: ts').map (fun u => (u.hour : Int)) ↔
        x ∈ ts.map (fun u => (u.hour : Int)) :=
    fun x => (hperm.map (fun u => (u.hour : Int))).mem_iff
  have hA : ((t :: ts').map (fun u => (u.hour : Int))).foldl min (t.hour : Int) =
      (ts'.map (fun u => (u.hour : Int))).foldl min (t.hour : Int) := by
    simp [min_self]
  cases hcs : ts.map (fun u => (u.hour : Int)) with
  | nil =>
    exfalso
    have := (hmem (t.hour : Int)).mp (by simp)
    rw [hcs] at this
    simp at this
  | cons u us =>
    have hB : ((u :: us).min?).getD 0 = us.foldl min u := by simp [List.min?]
    rw [hB, hA]
    have hAmem : (ts'.map (fun v => (v.hour : Int))).foldl min (t.hour : Int) ∈
        (t :: ts').map (fun u => (u.hour : Int)) := by
      simpa using foldl_min_mem (ts'.map (fun v => (v.hour : Int))) (t.hour : Int)
    have hBmem : us.foldl min u ∈ u :: us := foldl_min_mem us u
    apply le_antisymm
    · apply foldl_min_le_all (ts'.map (fun v => (v.hour : Int))) (t.hour : Int)
      have : us.foldl min u ∈ ts.map (fun u => (u.hour : Int)) := by
        rw [hcs]; exact hBmem
      simpa using (hmem _).mpr this
    · apply foldl_min_le_all us u
      rw [← hcs]
      exact (hmem _).mp hAmem

theorem code_max_eq_claim_max (t : TimeOfDay) (ts' ts : List TimeOfDay)
    (hperm : (t :: ts').Perm ts) :
    ((t :: ts').map (fun u => (u.hour : Int))).foldl max (t.hour : Int) =
      ((ts.map (fun u => (u.hour : Int))).max?).getD 0 := by
  have hmem : ∀ x : Int,
      x ∈ (t :: ts').map (fun u => (u.hour : Int)) ↔
        x ∈ ts.map (fun u => (u.hour : Int)) :=
    fun x => (hperm.map (fun u => (u.hour : Int))).mem_iff
  have hA : ((t :: ts').map (fun u => (u.hour : Int))).foldl max (t.hour : Int) =
      (ts'.map (fun u => (u.hour : Int))).foldl max (t.hour : Int) := by
    simp [max_self]
  cases hcs : ts.map (fun u => (u.hour : Int)) with
  | nil =>
    exfalso
    have := (hmem (t.hour : Int)).mp (by simp)
    rw [hcs] at this
    simp at this
  | cons u us =>
    have hB : ((u :: us).max?).getD 0 = us.foldl max u := by simp [List.max?]
    rw [hB, hA]
    have hAmem : (ts'.map (fun v => (v.hour : Int))).foldl max (t.hour : Int) ∈
        (t :: ts').map (fun u => (u.hour : Int)) := by
      simpa using foldl_max_mem (ts'.map (fun v => (v.hour : Int))) (t.hour : Int)
    have hBmem : us.foldl max u ∈ u :: us := foldl_max_mem us u
    apply le_antisymm
    · apply foldl_max_ge_all us u
      rw [← hcs]
      exact (hmem _).mp hAmem
    · apply foldl_max_ge_all (ts'.map (fun v => (v.hour : Int))) (t.hour : Int)
      have : us.foldl max u ∈ ts.map (fun u => (u.hour : Int)) := by
        rw [hcs]; exact hBmem
      simpa using (hmem _).mpr this

/-- C7. `evaluate_gaps` returns 1.0 when the level is absent from the
index or the candidate day has no recorded start times; otherwise it
buckets the maximum of the consecutive sorted-hour gaps and the absolute
distances from the candidate start to the earliest and latest recorded
start times: 1.0 when ≤ 2, 0.5 when ≤ 4, 0.0 otherwise. -/
theorem c7_evaluate_gaps_spec (ctx : CMCtx) (b : Block) (s : TimePreference)
    (r : Room) :
    evaluate_gaps ctx b s r =
      match alGet? ctx.state.level_slots (b.academic_list, b.academic_level) with
      | none => Frac.ofInt 1
      | some byDay =>
        match alGet? byDay s.day with
        | none => Frac.ofInt 1
        | some ts =>
          if ts.isEmpty then Frac.ofInt 1
          else claim_gap_bucket (claim_max_gap ts s.start_time) := by
  unfold evaluate_gaps
  dsimp only
  cases h1 : alGet? ctx.state.level_slots (b.academic_list, b.academic_level) with
  | none => rfl
  | some byDay =>
    dsimp only
    cases h2 : alGet? byDay s.day with
    | none => rfl
    | some ts =>
      dsimp only
      unfold claim_gap_bucket claim_max_gap
      dsimp only
      cases hts : tsort ts with
      | nil =>
        have hts0 : ts = [] := by
          have hlen := (tsort_perm ts).length_eq
          rw [hts] at hlen
          exact List.length_eq_zero.mp hlen.symm
        subst hts0
        rfl
      | cons t ts' =>
        have hne : ts ≠ [] := by
          intro h
          rw [h] at hts
          simp [tsort] at hts
        rw [show ts.isEmpty = false from List.isEmpty_eq_false.mpr hne]
        dsimp only
        rw [List.foldl_append]
        have hperm : (t :: ts').Perm ts := hts ▸ tsort_perm ts
        rw [← code_min_eq_claim_min t ts' ts hperm,
          ← code_max_eq_claim_max t ts' ts hperm]
        dsimp only [List.foldl]
        rfl

/-! ### Single-group conflicts (claim C5) -/

/-- An assignment map in which every entry is stored under its block's
id (always true for the maps the scheduler builds, which insert via
`current_assignments[block.id] = assignment`). -/
def WellKeyed (m : AssignMap) : Prop := ∀ kv ∈ m, kv.2.block.id = kv.1

theorem entry_unique (m : AssignMap) (hN : (m.map Prod.fst).Nodup) :
    ∀ kv ∈ m, ∀ kv' ∈ m, kv.1 = kv'.1 → kv = kv' := by
  induction m with
  | nil => intro kv h; simp at h
  | cons hd tl ih =>
    intro kv hkv kv' hkv' hkey
    rw [List.map_cons, List.nodup_cons] at hN
    rcases List.mem_cons.mp hkv with rfl | hkv2
    · rcases List.mem_cons.mp hkv' with rfl | hkv2'
      · rfl
      · exact absurd (hkey ▸ List.mem_map_of_mem Prod.fst hkv2') hN.1
    · rcases List.mem_cons.mp hkv' with rfl | hkv2'
      · exact absurd (hkey ▸ List.mem_map_of_mem Prod.fst hkv2) hN.1
      · exact ih hN.2 kv hkv2 kv' hkv2' hkey

theorem find?_eq_of_wellKeyed (m : AssignMap) (hW : WellKeyed m)
    (hN : (m.map Prod.fst).Nodup) (kv : String × Assignment) (hkv : kv ∈ m) :
    m.find? (fun kv' => kv'.2.block.id == kv.1) = some kv := by
  induction m with
  | nil => simp at hkv
  | cons hd tl ih =>
    rw [List.map_cons, List.nodup_cons] at hN
    by_cases hk : hd.1 = kv.1
    · have hpred : (hd.2.block.id == kv.1) = true := by
        rw [hW hd (List.mem_cons_self hd tl), hk]
        exact beq_self_eq_true kv.1
      rw [show (hd :: tl).find? (fun kv' => kv'.2.block.id == kv.1) = some hd from
        List.find?_cons_of_pos tl hpred]
      rcases List.mem_cons.mp hkv with rfl | hkv2
      · rfl
      · exact absurd (hk ▸ List.mem_map_of_mem Prod.fst hkv2) hN.1
    · have hpred : (hd.2.block.id == kv.1) = false := by
        rw [hW hd (List.mem_cons_self hd tl)]
        exact beq_eq_false_iff_ne.mpr hk
      rw [show (hd :: tl).find? (fun kv' => kv'.2.block.id == kv.1) =
          tl.find? (fun kv' => kv'.2.block.id == kv.1) from
        List.find?_cons_of_neg tl (by simp [hpred])]
      rcases List.mem_cons.mp hkv with rfl | hkv2
      · exact absurd rfl hk
      · exact ih (fun x hx => hW x (List.mem_cons_of_mem hd hx)) hN.2 hkv2

theorem mem_resolveExistingBlocks (m : AssignMap) (ids : List String)
    (hW : WellKeyed m) (hN : (m.map Prod.fst).Nodup) (blk : Block) :
    blk ∈ resolveExistingBlocks (update_state m) ids ↔
      ∃ id ∈ ids, ∃ kv ∈ m, kv.1 = id ∧ kv.2.block = blk := by
  unfold resolveExistingBlocks
  have hcur : (update_state m).current_assignments = m := rfl
  rw [hcur, List.mem_filterMap]
  constructor
  · rintro ⟨id, hid, hmap⟩
    rcases Option.map_eq_some'.mp hmap with ⟨kv, hfind, hblk⟩
    have hkvm := List.mem_of_find?_eq_some hfind
    have hpred := List.find?_some hfind
    have hkey : kv.1 = id := by
      have := hW kv hkvm
      rw [← this]
      exact eq_of_beq hpred
    exact ⟨id, hid, kv, hkvm, hkey, hblk⟩
  · rintro ⟨id, hid, kv, hkvm, hkey, hblk⟩
    refine ⟨id, hid, ?_⟩
    rw [← hkey, find?_eq_of_wellKeyed m hW hN kv hkvm]
    simp [hblk]

/-- The claim's notion of a block recorded at the key
K = (block.academic_list, slot.day, slot.start_time). -/
def atK (b : Block) (s : TimePreference) (kv : String × Assignment) : Prop :=
  kv.2.block.academic_list = b.academic_list ∧ kv.2.time_slot.day = s.day ∧
    kv.2.time_slot.start_time = s.start_time

theorem spKey_eq_iff_atK (b : Block) (s : TimePreference)
    (kv : String × Assignment) :
    (b.academic_list, s.day, s.start_time) = spKey kv.2 ↔ atK b s kv := by
  unfold spKey atK
  constructor
  · intro h
    injection h with h1 h2
    injection h2 with h2 h3
    exact ⟨h1.symm, h2.symm, h3.symm⟩
  · rintro ⟨h1, h2, h3⟩
    rw [h1, h2, h3]

/-- C5. For a state rebuilt from an assignment map keyed by block ids,
`check_single_group_conflict` returns False exactly when some block is
recorded at K = (block.academic_list, slot.day, slot.start_time) and at
least one holds: the new block is single-group; some recorded block is
single-group; or some recorded block shares the course code and either
of the two has total_groups = 1. Otherwise it returns True. -/
theorem c5_check_single_group_conflict_iff (m : AssignMap) (b : Block)
    (s : TimePreference) (r : Room) (hW : WellKeyed m)
    (hN : (m.map Prod.fst).Nodup) :
    check_single_group_conflict (update_state m) b s r = false ↔
      ((∃ kv ∈ m, atK b s kv) ∧
        (b.is_single_group_course = true ∨
          (∃ kv ∈ m, atK b s kv ∧ kv.2.block.is_single_group_course = true) ∨
          (∃ kv ∈ m, atK b s kv ∧ kv.2.block.course_code = b.course_code ∧
            (b.total_groups = 1 ∨ kv.2.block.total_groups = 1)))) := by
  unfold check_single_group_conflict
  dsimp only
  cases h : alGet? (update_state m).state.study_plan_slots
      (b.academic_list, s.day, s.start_time) with
  | none =>
    have habs : ¬ ∃ kv ∈ m, (b.academic_list, s.day, s.start_time) = spKey kv.2 := by
      intro hex
      have hc := (spContains_update_state m
        (b.academic_list, s.day, s.start_time)).mpr hex
      unfold alContains at hc
      rw [h] at hc
      simp at hc
    simp only [Bool.true_eq_false, false_iff]
    rintro ⟨⟨kv, hkv, hatk⟩, _⟩
    exact habs ⟨kv, hkv, (spKey_eq_iff_atK b s kv).mpr hatk⟩
  | some recorded =>
    dsimp only
    have hrec : ∀ id, id ∈ recorded ↔
        ∃ kv ∈ m, (b.academic_list, s.day, s.start_time) = spKey kv.2 ∧
          id = kv.1 := by
      intro id
      have hsp := spRecorded_update_state m
        (b.academic_list, s.day, s.start_time) id
      unfold spRecorded alGetD at hsp
      rw [h] at hsp
      simpa using hsp
    have hpresent : ∃ kv ∈ m, atK b s kv := by
      have hc : alContains (update_state m).state.study_plan_slots
          (b.academic_list, s.day, s.start_time) = true := by
        unfold alContains
        rw [h]
        rfl
      rcases (spContains_update_state m _).mp hc with ⟨kv, hkv, hsp⟩
      exact ⟨kv, hkv, (spKey_eq_iff_atK b s kv).mp hsp⟩
    have hmemblk : ∀ blk, blk ∈ resolveExistingBlocks (update_state m) recorded ↔
        ∃ kv ∈ m, atK b s kv ∧ kv.2.block = blk := by
      intro blk
      rw [mem_resolveExistingBlocks m recorded hW hN blk]
      constructor
      · rintro ⟨id, hid, kv, hkv, hkey, hblk⟩
        rcases (hrec id).mp hid with ⟨kv', hkv', hsp', hid'⟩
        have hkk : kv = kv' := entry_unique m hN kv hkv kv' hkv' (by rw [hkey, hid'])
        refine ⟨kv, hkv, ?_, hblk⟩
        rw [hkk]
        exact (spKey_eq_iff_atK b s kv').mp hsp'
      · rintro ⟨kv, hkv, hatk, hblk⟩
        exact ⟨kv.1, (hrec kv.1).mpr
          ⟨kv, hkv, (spKey_eq_iff_atK b s kv).mpr hatk, rfl⟩, kv, hkv, rfl, hblk⟩
    have hanyS : (resolveExistingBlocks (update_state m) recorded).any
        (fun eb => eb.is_single_group_course) = true ↔
        ∃ kv ∈ m, atK b s kv ∧ kv.2.block.is_single_group_course = true := by
      rw [List.any_eq_true]
      constructor
      · rintro ⟨blk, hblk, hsb⟩
        rcases (hmemblk blk).mp hblk with ⟨kv, hkv, hatk, hblk2⟩
        exact ⟨kv, hkv, hatk, by rw [hblk2]; exact hsb⟩
      · rintro ⟨kv, hkv, hatk, hsb⟩
        exact ⟨kv.2.block, (hmemblk kv.2.block).mpr ⟨kv, hkv, hatk, rfl⟩, hsb⟩
    have hanyC : (resolveExistingBlocks (update_state m) recorded).any
        (fun eb => eb.course_code == b.course_code
          && (b.total_groups == 1 || eb.total_groups == 1)) = true ↔
        ∃ kv ∈ m, atK b s kv ∧ kv.2.block.course_code = b.course_code ∧
          (b.total_groups = 1 ∨ kv.2.block.total_groups = 1) := by
      rw [List.any_eq_true]
      constructor
      · rintro ⟨blk, hblk, hsb⟩
        rcases (hmemblk blk).mp hblk with ⟨kv, hkv, hatk, hblk2⟩
        refine ⟨kv, hkv, hatk, ?_⟩
        rw [hblk2]
        simpa using hsb
      · rintro ⟨kv, hkv, hatk, hcc, htg⟩
        refine ⟨kv.2.block, (hmemblk kv.2.block).mpr ⟨kv, hkv, hatk, rfl⟩, ?_⟩
        simp [hcc, htg]
    by_cases hb : b.is_single_group_course
    · rw [if_pos hb]
      simp only [eq_self_iff_true, true_iff]
      exact ⟨hpresent, Or.inl hb⟩
    · rw [if_neg hb]
      rw [Bool.not_eq_true] at hb
      by_cases h2 : (resolveExistingBlocks (update_state m) recorded).any
          (fun eb => eb.is_single_group_course) = true
      · rw [if_pos h2]
        simp only [eq_self_iff_true, true_iff]
        exact ⟨hpresent, Or.inr (Or.inl (hanyS.mp h2))⟩
      · rw [if_neg h2]
        by_cases h3 : (resolveExistingBlocks (update_state m) recorded).any
            (fun eb => eb.course_code == b.course_code
              && (b.total_groups == 1 || eb.total_groups == 1)) = true
        · rw [if_pos h3]
          simp only [eq_self_iff_true, true_iff]
          exact ⟨hpresent, Or.inr (Or.inr (hanyC.mp h3))⟩
        · rw [if_neg h3]
          simp only [Bool.true_eq_false, false_iff]
          rintro ⟨_, hcase | hcase | hcase⟩
          · rw [hb] at hcase
            cases hcase
          · exact h2 (hanyS.mpr hcase)
          · exact h3 (hanyC.mpr hcase)

/-! ### Session-atom builder (claim C6) -/

theorem lectureBlocksLoop_nil (c : CourseAssignment) (sp : StudyPlan) (cnt : Int) :
    lectureBlocksLoop c sp [] cnt = [] := rfl

theorem lectureBlocksLoop_cons (c : CourseAssignment) (sp : StudyPlan)
    (la : LecturerAssignment) (rest : List LecturerAssignment) (cnt : Int) :
    lectureBlocksLoop c sp (la :: rest) cnt =
      (List.range la.num_of_groups.toNat).map
          (fun (i : Nat) => mkLectureBlock c sp la.lecturer (cnt + (i : Int)))
        ++ lectureBlocksLoop c sp rest (cnt + (la.num_of_groups.toNat : Int)) := rfl

theorem labBlocksLoop_nil (c : CourseAssignment) (sp : StudyPlan) (cnt : Int) :
    labBlocksLoop c sp [] cnt = [] := rfl

theorem labBlocksLoop_cons (c : CourseAssignment) (sp : StudyPlan)
    (ta : TAAssignment) (rest : List TAAssignment) (cnt : Int) :
    labBlocksLoop c sp (ta :: rest) cnt =
      (List.range ta.num_of_groups.toNat).map
          (fun (i : Nat) => mkLabBlock c sp ta.teaching_assistant (cnt + (i : Int)))
        ++ labBlocksLoop c sp rest (cnt + (ta.num_of_groups.toNat : Int)) := rfl

theorem lectureBlocksLoop_groupNumbers (c : CourseAssignment) (sp : StudyPlan) :
    ∀ (las : List LecturerAssignment) (cnt : Int),
      (lectureBlocksLoop c sp las cnt).map (fun b => b.group_number) =
        (List.range ((las.map (fun la => la.num_of_groups.toNat)).sum)).map
          (fun (i : Nat) => cnt + (i : Int)) := by
  intro las
  induction las with
  | nil => intro cnt; rfl
  | cons la rest ih =>
    intro cnt
    rw [lectureBlocksLoop_cons]
    rw [List.map_append, List.map_map, ih (cnt + (la.num_of_groups.toNat : Int))]
    rw [List.map_cons, List.sum_cons, List.range_add, List.map_append, List.map_map]
    congr 1
    apply List.map_congr_left
    intro i _
    simp only [Function.comp_apply]
    push_cast
    ring

theorem lectureBlocksLoop_fields (c : CourseAssignment) (sp : StudyPlan) :
    ∀ (las : List LecturerAssignment) (cnt : Int),
      ∀ b ∈ lectureBlocksLoop c sp las cnt,
        b.course_code = c.course_code ∧ b.block_type = BlockType.LECTURE ∧
          b.total_groups = c.lecture_groups ∧ b.required_room_type = "hall" ∧
          b.student_count = Int.fdiv sp.expected_students c.lecture_groups := by
  intro las
  induction las with
  | nil => intro cnt b hb; simp [lectureBlocksLoop] at hb
  | cons la rest ih =>
    intro cnt b hb
    rw [lectureBlocksLoop_cons] at hb
    rcases List.mem_append.mp hb with hb1 | hb1
    · rcases List.mem_map.mp hb1 with ⟨i, _, rfl⟩
      exact ⟨rfl, rfl, rfl, rfl, rfl⟩
    · exact ih _ b hb1

theorem labBlocksLoop_fields (c : CourseAssignment) (sp : StudyPlan) :
    ∀ (tas : List TAAssignment) (cnt : Int),
      ∀ b ∈ labBlocksLoop c sp tas cnt,
        b.course_code = c.course_code ∧ b.block_type = BlockType.LAB := by
  intro tas
  induction tas with
  | nil => intro cnt b hb; simp [labBlocksLoop] at hb
  | cons ta rest ih =>
    intro cnt b hb
    rw [labBlocksLoop_cons] at hb
    rcases List.mem_append.mp hb with hb1 | hb1
    · rcases List.mem_map.mp hb1 with ⟨i, _, rfl⟩
      exact ⟨rfl, rfl⟩
    · exact ih _ b hb1

theorem labBlocksLoop_length (c : CourseAssignment) (sp : StudyPlan) :
    ∀ (tas : List TAAssignment) (cnt : Int),
      (labBlocksLoop c sp tas cnt).length =
        (tas.map (fun ta => ta.num_of_groups.toNat)).sum := by
  intro tas
  induction tas with
  | nil => intro cnt; rfl
  | cons ta rest ih =>
    intro cnt
    rw [labBlocksLoop_cons]
    rw [List.length_append, List.length_map, List.length_range, ih]
    simp

/-- Every block the builder emits carries the course code of the course
assignment it came from. -/
theorem convert_mem_codes (cas : List CourseAssignment) (sp : StudyPlan) :
    ∀ b ∈ convert_course_assignments_to_blocks cas sp,
      b.course_code ∈ cas.map (fun c => c.course_code) := by
  induction cas with
  | nil => intro b hb; simp [convert_course_assignments_to_blocks] at hb
  | cons c rest ih =>
    intro b hb
    unfold convert_course_assignments_to_blocks at hb
    rw [List.map_cons, List.flatten_cons, List.mem_append] at hb
    rcases hb with hb1 | hb1
    · rcases List.mem_append.mp hb1 with hb2 | hb2
      · rw [(lectureBlocksLoop_fields c sp c.lecturers 1 b hb2).1]
        simp
      · rcases Decidable.em (c.lab_groups ≠ 0) with hl | hl
        · rw [if_pos hl] at hb2
          rw [(labBlocksLoop_fields c sp (c.teaching_assistants.getD []) 1 b hb2).1]
          simp
        · rw [if_neg hl] at hb2
          simp at hb2
    · rw [List.map_cons]
      exact List.mem_cons_of_mem _ (ih b hb1)

theorem sum_toNat_eq (l : List Int) (h : ∀ x ∈ l, 0 ≤ x) :
    ((l.map Int.toNat).sum : Int) = l.sum := by
  induction l with
  | nil => simp
  | cons x xs ih =>
    have hx := h x (List.mem_cons_self x xs)
    have hs := ih (fun y hy => h y (List.mem_cons_of_mem x hy))
    simp only [List.map_cons, List.sum_cons]
    rw [Nat.cast_add, Int.toNat_of_nonneg hx, hs]

theorem convert_cons_eq (c0 : CourseAssignment) (rest : List CourseAssignment)
    (sp : StudyPlan) :
    convert_course_assignments_to_blocks (c0 :: rest) sp =
      (lectureBlocksLoop c0 sp c0.lecturers 1
        ++ (if c0.lab_groups ≠ 0 then
              labBlocksLoop c0 sp (c0.teaching_assistants.getD []) 1
            else []))
        ++ convert_course_assignments_to_blocks rest sp := by
  unfold convert_course_assignments_to_blocks
  rw [List.map_cons, List.flatten_cons]

theorem convert_filter_lecture (cas : List CourseAssignment) (sp : StudyPlan)
    (c : CourseAssignment) (hc : c ∈ cas)
    (hcodes : (cas.map (fun x => x.course_code)).Nodup) :
    (convert_course_assignments_to_blocks cas sp).filter
        (fun b => b.course_code == c.course_code
          && b.block_type == BlockType.LECTURE) =
      lectureBlocksLoop c sp c.lecturers 1 := by
  induction cas with
  | nil => simp at hc
  | cons c0 rest ih =>
    rw [List.map_cons, List.nodup_cons] at hcodes
    rw [convert_cons_eq, List.filter_append, List.filter_append]
    rcases List.mem_cons.mp hc with rfl | hcr
    · have h1 : (lectureBlocksLoop c sp c.lecturers 1).filter
          (fun b => b.course_code == c.course_code
            && b.block_type == BlockType.LECTURE) =
          lectureBlocksLoop c sp c.lecturers 1 := by
        rw [List.filter_eq_self]
        intro b hb
        rcases lectureBlocksLoop_fields c sp c.lecturers 1 b hb with ⟨h1, h2, _⟩
        simp [h1, h2]
      have h2 : ((if c.lab_groups ≠ 0 then
            labBlocksLoop c sp (c.teaching_assistants.getD []) 1
          else []) : List Block).filter
          (fun b => b.course_code == c.course_code
            && b.block_type == BlockType.LECTURE) = [] := by
        split
        · rw [List.filter_eq_nil_iff]
          intro b hb
          rcases labBlocksLoop_fields c sp (c.teaching_assistants.getD []) 1 b hb
            with ⟨_, h2⟩
          simp [h2]
        · rfl
      have h3 : (convert_course_assignments_to_blocks rest sp).filter
          (fun b => b.course_code == c.course_code
            && b.block_type == BlockType.LECTURE) = [] := by
        rw [List.filter_eq_nil_iff]
        intro b hb
        have hmem := convert_mem_codes rest sp b hb
        have : b.course_code ≠ c.course_code := by
          intro he
          exact hcodes.1 (he ▸ hmem)
        simp [this]
      rw [h1, h2, h3, List.append_nil, List.append_nil]
    · have hne : c0.course_code ≠ c.course_code := by
        intro he
        exact hcodes.1 (he ▸ List.mem_map_of_mem (fun x => x.course_code) hcr)
      have h1 : (lectureBlocksLoop c0 sp c0.lecturers 1).filter
          (fun b => b.course_code == c.course_code
            && b.block_type == BlockType.LECTURE) = [] := by
        rw [List.filter_eq_nil_iff]
        intro b hb
        rcases lectureBlocksLoop_fields c0 sp c0.lecturers 1 b hb with ⟨h1, _, _⟩
        simp [h1, hne]
      have h2 : ((if c0.lab_groups ≠ 0 then
            labBlocksLoop c0 sp (c0.teaching_assistants.getD []) 1
          else []) : List Block).filter
          (fun b => b.course_code == c.course_code
            && b.block_type == BlockType.LECTURE) = [] := by
        split
        · rw [List.filter_eq_nil_iff]
          intro b hb
          rcases labBlocksLoop_fields c0 sp (c0.teaching_assistants.getD []) 1 b hb
            with ⟨h1, _⟩
          simp [h1, hne]
        · rfl
      rw [h1, h2, ih hcr hcodes.2]
      rfl

theorem convert_filter_lab (cas : List CourseAssignment) (sp : StudyPlan)
    (c : CourseAssignment) (hc : c ∈ cas)
    (hcodes : (cas.map (fun x => x.course_code)).Nodup) :
    (convert_course_assignments_to_blocks cas sp).filter
        (fun b => b.course_code == c.course_code
          && b.block_type == BlockType.LAB) =
      (if c.lab_groups ≠ 0 then
        labBlocksLoop c sp (c.teaching_assistants.getD []) 1
      else []) := by
  induction cas with
  | nil => simp at hc
  | cons c0 rest ih =>
    rw [List.map_cons, List.nodup_cons] at hcodes
    rw [convert_cons_eq, List.filter_append, List.filter_append]
    rcases List.mem_cons.mp hc with rfl | hcr
    · have h1 : (lectureBlocksLoop c sp c.lecturers 1).filter
          (fun b => b.course_code == c.course_code
            && b.block_type == BlockType.LAB) = [] := by
        rw [List.filter_eq_nil_iff]
        intro b hb
        rcases lectureBlocksLoop_fields c sp c.lecturers 1 b hb with ⟨_, h2, _⟩
        simp [h2]
      have h2 : ((if c.lab_groups ≠ 0 then
            labBlocksLoop c sp (c.teaching_assistants.getD []) 1
          else []) : List Block).filter
          (fun b => b.course_code == c.course_code
            && b.block_type == BlockType.LAB) =
          (if c.lab_groups ≠ 0 then
            labBlocksLoop c sp (c.teaching_assistants.getD []) 1
          else []) := by
        rw [List.filter_eq_self]
        intro b hb
        split at hb
        · rcases labBlocksLoop_fields c sp (c.teaching_assistants.getD []) 1 b hb
            with ⟨h1, h2⟩
          simp [h1, h2]
        · simp at hb
      have h3 : (convert_course_assignments_to_blocks rest sp).filter
          (fun b => b.course_code == c.course_code
            && b.block_type == BlockType.LAB) = [] := by
        rw [List.filter_eq_nil_iff]
        intro b hb
        have hmem := convert_mem_codes rest sp b hb
        have : b.course_code ≠ c.course_code := by
          intro he
          exact hcodes.1 (he ▸ hmem)
        simp [this]
      rw [h1, h2, h3, List.append_nil, List.nil_append]
    · have hne : c0.course_code ≠ c.course_code := by
        intro he
        exact hcodes.1 (he ▸ List.mem_map_of_mem (fun x => x.course_code) hcr)
      have h1 : (lectureBlocksLoop c0 sp c0.lecturers 1).filter
          (fun b => b.course_code == c.course_code
            && b.block_type == BlockType.LAB) = [] := by
        rw [List.filter_eq_nil_iff]
        intro b hb
        rcases lectureBlocksLoop_fields c0 sp c0.lecturers 1 b hb with ⟨h1, _, _⟩
        simp [h1, hne]
      have h2 : ((if c0.lab_groups ≠ 0 then
            labBlocksLoop c0 sp (c0.teaching_assistants.getD []) 1
          else []) : List Block).filter
          (fun b => b.course_code == c.course_code
            && b.block_type == BlockType.LAB) = [] := by
        split
        · rw [List.filter_eq_nil_iff]
          intro b hb
          rcases labBlocksLoop_fields c0 sp (c0.teaching_assistants.getD []) 1 b hb
            with ⟨h1, _⟩
          simp [h1, hne]
        · rfl
      rw [h1, h2, ih hcr hcodes.2]
      rfl

/-- C6 (amended: every `num_of_groups` entry is additionally required to
be nonnegative — `CourseAssignment` validation only checks the sums, and
a negative entry makes Python's `range` empty, breaking the counts).
For a course of the input (course codes distinct), the emitted lecture
blocks carry consecutive group numbers starting at 1, `total_groups =
lecture_groups`, room type "hall", `student_count = expected_students //
lecture_groups`; their number equals `lecture_groups`, and when
`lab_groups > 0` the number of lab blocks equals `lab_groups`. -/
theorem c6_blocks_per_course (cas : List CourseAssignment) (sp : StudyPlan)
    (c : CourseAssignment) (hc : c ∈ cas)
    (hcodes : (cas.map (fun x => x.course_code)).Nodup)
    (hnonneg : ∀ la ∈ c.lecturers, 0 ≤ la.num_of_groups)
    (hsum : (c.lecturers.map (fun la => la.num_of_groups)).sum = c.lecture_groups)
    (hnonnegTA : ∀ ta ∈ c.teaching_assistants.getD [], 0 ≤ ta.num_of_groups)
    (hsumTA : 0 < c.lab_groups →
      ((c.teaching_assistants.getD []).map (fun ta => ta.num_of_groups)).sum =
        c.lab_groups) :
    ((convert_course_assignments_to_blocks cas sp).filter
        (fun b => b.course_code == c.course_code
          && b.block_type == BlockType.LECTURE)).map (fun b => b.group_number) =
      (List.range c.lecture_groups.toNat).map (fun (i : Nat) => 1 + (i : Int))
    ∧ (∀ b ∈ (convert_course_assignments_to_blocks cas sp).filter
          (fun b => b.course_code == c.course_code
            && b.block_type == BlockType.LECTURE),
        b.total_groups = c.lecture_groups ∧ b.required_room_type = "hall" ∧
          b.student_count = Int.fdiv sp.expected_students c.lecture_groups)
    ∧ (((convert_course_assignments_to_blocks cas sp).filter
          (fun b => b.course_code == c.course_code
            && b.block_type == BlockType.LECTURE)).length : Int) = c.lecture_groups
    ∧ (0 < c.lab_groups →
        (((convert_course_assignments_to_blocks cas sp).filter
            (fun b => b.course_code == c.course_code
              && b.block_type == BlockType.LAB)).length : Int) = c.lab_groups) := by
  have hfl := convert_filter_lecture cas sp c hc hcodes
  have hsumNat : (c.lecturers.map (fun la => la.num_of_groups.toNat)).sum =
      c.lecture_groups.toNat := by
    have h1 : (c.lecturers.map (fun la => la.num_of_groups.toNat)) =
        (c.lecturers.map (fun la => la.num_of_groups)).map Int.toNat := by
      rw [List.map_map]
      rfl
    have h2 := sum_toNat_eq (c.lecturers.map (fun la => la.num_of_groups))
      (by
        intro x hx
        rcases List.mem_map.mp hx with ⟨la, hla, rfl⟩
        exact hnonneg la hla)
    rw [hsum] at h2
    rw [h1]
    omega
  have hgn : ((convert_course_assignments_to_blocks cas sp).filter
      (fun b => b.course_code == c.course_code
        && b.block_type == BlockType.LECTURE)).map (fun b => b.group_number) =
      (List.range c.lecture_groups.toNat).map (fun (i : Nat) => 1 + (i : Int)) := by
    rw [hfl, lectureBlocksLoop_groupNumbers, hsumNat]
  have hlg_nonneg : 0 ≤ c.lecture_groups := by
    rw [← hsum]
    apply List.sum_nonneg
    intro x hx
    rcases List.mem_map.mp hx with ⟨la, hla, rfl⟩
    exact hnonneg la hla
  refine ⟨hgn, ?_, ?_, ?_⟩
  · intro b hb
    rw [hfl] at hb
    rcases lectureBlocksLoop_fields c sp c.lecturers 1 b hb with ⟨_, _, h3, h4, h5⟩
    exact ⟨h3, h4, h5⟩
  · have hlen : ((convert_course_assignments_to_blocks cas sp).filter
        (fun b => b.course_code == c.course_code
          && b.block_type == BlockType.LECTURE)).length =
        c.lecture_groups.toNat := by
      have := congrArg List.length hgn
      rw [List.length_map, List.length_map, List.length_range] at this
      exact this
    rw [hlen]
    omega
  · intro hlab
    have hflab := convert_filter_lab cas sp c hc hcodes
    rw [hflab, if_pos (by omega)]
    rw [labBlocksLoop_length]
    have h1 : ((c.teaching_assistants.getD []).map
        (fun ta => ta.num_of_groups.toNat)) =
        ((c.teaching_assistants.getD []).map (fun ta => ta.num_of_groups)).map
          Int.toNat := by
      rw [List.map_map]
      rfl
    have h2 := sum_toNat_eq
      ((c.teaching_assistants.getD []).map (fun ta => ta.num_of_groups))
      (by
        intro x hx
        rcases List.mem_map.mp hx with ⟨ta, hta, rfl⟩
        exact hnonnegTA ta hta)
    rw [hsumTA hlab] at h2
    rw [h1]
    omega

/-! ### Concrete data for witnesses and counterexamples -/

/-- A lecturer with one Sunday 9:00-11:00 timing preference. -/
def drA : StaffMember :=
  { id := 1
    name := "Dr. A"
    department := .COMPUTER_SCIENCE
    timing_preferences := [⟨.SUNDAY, ⟨9,0⟩, ⟨11,0⟩⟩]
    academic_degree := .PROFESSOR
    is_permanent := true
    role := .lecturer }

/-- A lecturer with an empty timing-preference list: no slot can ever be
enumerated for their blocks. -/
def drB : StaffMember :=
  { id := 2
    name := "Dr. B"
    department := .COMPUTER_SCIENCE
    timing_preferences := []
    academic_degree := .PROFESSOR
    is_permanent := true
    role := .lecturer }

/-- One hall, available Sunday 9:00-11:00. -/
def hallOne : Hall :=
  { id := 1
    name := "H1"
    capacity := 50
    availability := [⟨.SUNDAY, ⟨9,0⟩, ⟨11,0⟩⟩] }

def rmW : ResourceManager := { halls := [hallOne], labs := [] }

/-- CS101: one lecture group taught by `drA`. -/
def caW : CourseAssignment :=
  { course_code := "CS101"
    lecture_groups := 1
    lecturers := [⟨drA, 1⟩] }

/-- CS102: one lecture group taught by `drB` (who has no preferences, so
its block can never be placed). -/
def caB : CourseAssignment :=
  { course_code := "CS102"
    lecture_groups := 1
    lecturers := [⟨drB, 1⟩] }

/-- CS103: passes `CourseAssignment.__post_init__` (lecture_groups = 2 >
0, lecturers non-empty, 3 + (-1) = 2 = lecture_groups) yet one group
count is negative. -/
def caNeg : CourseAssignment :=
  { course_code := "CS103"
    lecture_groups := 2
    lecturers := [⟨drA, 3⟩, ⟨drB, -1⟩] }

def alW : AcademicList :=
  { name := "AI"
    department := .ARTIFICIAL_INTELLIGENCE
    courses := [⟨"CS101", "Intro", "x", 2, 2, 3, none⟩] }

def spW : StudyPlan :=
  { name := "SP"
    academic_list := alW
    academic_level := 1
    expected_students := 40
    course_assignments := [caW] }

/-- The Sunday 9:00-11:00 slot. -/
def prefSun : TimePreference := ⟨.SUNDAY, ⟨9,0⟩, ⟨11,0⟩⟩

/-- The CS101 lecture block of group 1. -/
def blkC5 : Block := mkLectureBlock caW spW drA 1

/-- A one-assignment map: `blkC5` placed in `hallOne` on Sunday 9:00. -/
def mC5 : AssignMap := [(blkC5.id, ⟨blkC5, prefSun, Room.hall hallOne⟩)]

/-! ### Claims C2, C3, C5 (witness), C6 -/

/-- C2. The spec says `schedule_blocks` raises "Could not find a valid
schedule" whenever no attempt produced any assignments. In the code the
first attempt always becomes `best_attempt` (`_is_better_attempt`
returns True against a null best, and the zero-assignment attempt is a
truthy dataclass), so on an input where no block can ever be placed —
one course whose lecturer has an empty timing-preference list — the
call returns an empty map instead of raising. -/
theorem c2_zero_assignments_returns_empty :
    schedule_blocks rmW [caB] spW 1 = Except.ok [] := by decide

/-- C3. The map handed to the resource manager's available-slot
enumeration is NOT the in-flight assignment map: `self.current_attempt`
is initialised to `None` and never assigned afterwards, so
`_get_possible_slots` always passes the empty map. First conjunct:
`_get_possible_slots` coincides with enumeration against the empty map
for every block and room. Second conjunct: enumeration against a
genuine in-flight map differs — a slot already occupied in the current
pass is still offered. -/
theorem c3_slot_enumeration_ignores_inflight :
    (∀ (b : Block) (r : Room), get_possible_slots b r = get_available_slots b r [])
    ∧ get_possible_slots blkC5 (Room.hall hallOne) ≠
        get_available_slots blkC5 (Room.hall hallOne) mC5 := by
  refine ⟨fun b r => rfl, ?_⟩
  decide

/-- C5 witness: the characterisation applied to the concrete
one-assignment map `mC5` (well-keyed, distinct keys) and a second CS101
single-group block at the same (academic list, day, start). -/
theorem c5_check_single_group_conflict_iff_witness :
    check_single_group_conflict (update_state mC5) blkC5 prefSun
        (Room.hall hallOne) = false ↔
      ((∃ kv ∈ mC5, atK blkC5 prefSun kv) ∧
        (blkC5.is_single_group_course = true ∨
          (∃ kv ∈ mC5, atK blkC5 prefSun kv ∧
            kv.2.block.is_single_group_course = true) ∨
          (∃ kv ∈ mC5, atK blkC5 prefSun kv ∧
            kv.2.block.course_code = blkC5.course_code ∧
            (blkC5.total_groups = 1 ∨ kv.2.block.total_groups = 1)))) :=
  c5_check_single_group_conflict_iff mC5 blkC5 prefSun (Room.hall hallOne)
    (by unfold WellKeyed; decide) (by decide)

/-- C6 counterexample: `caNeg` satisfies every check of
`CourseAssignment.__post_init__` (positive lecture_groups, non-empty
lecturers, group counts summing to lecture_groups), yet the converter
emits 3 lecture blocks for its 2 lecture groups: `range(-1)` is empty,
so the negative entry contributes nothing instead of subtracting. -/
theorem c6_negative_groups_counterexample :
    (0 < caNeg.lecture_groups ∧ caNeg.lecturers ≠ [] ∧
      (caNeg.lecturers.map (fun la => la.num_of_groups)).sum =
        caNeg.lecture_groups) ∧
    ¬ ((((convert_course_assignments_to_blocks [caNeg] spW).filter
          (fun b => b.course_code == caNeg.course_code
            && b.block_type == BlockType.LECTURE)).length : Int) =
        caNeg.lecture_groups) := by
  refine ⟨⟨by decide, by decide, by decide⟩, ?_⟩
  decide

/-- C6 witness: the per-course block law applied to the concrete
single-course input `[caW]` (nonnegative group counts). -/
theorem c6_blocks_per_course_witness :
    ((convert_course_assignments_to_blocks [caW] spW).filter
        (fun b => b.course_code == caW.course_code
          && b.block_type == BlockType.LECTURE)).map (fun b => b.group_number) =
      (List.range caW.lecture_groups.toNat).map (fun (i : Nat) => 1 + (i : Int))
    ∧ (((convert_course_assignments_to_blocks [caW] spW).filter
          (fun b => b.course_code == caW.course_code
            && b.block_type == BlockType.LECTURE)).length : Int) =
        caW.lecture_groups :=
  ⟨(c6_blocks_per_course [caW] spW caW (by decide) (by decide) (by decide)
      (by decide) (by decide) (by decide)).1,
    (c6_blocks_per_course [caW] spW caW (by decide) (by decide) (by decide)
      (by decide) (by decide) (by decide)).2.2.1⟩

/-! ### Context-independence of the greedy construction (claims C8, C9) -/

theorem isEmpty_true_iff {α : Type} (l : List α) : l.isEmpty = true ↔ l = [] := by
  cases l <;> simp [List.isEmpty]

/-- `ssbSlotStep` reads its accumulator only through the best-candidate
component: the posterior manager state it returns is rebuilt from the
fixed `m`. -/
theorem ssbSlotStep_congr (b : Block) (r : Room) (m : AssignMap)
    (acc acc' : CMCtx × Option (Frac × Assignment)) (h : acc.2 = acc'.2)
    (slot : TimePreference) :
    ssbSlotStep b r m acc slot = ssbSlotStep b r m acc' slot := by
  unfold ssbSlotStep
  rw [h]

/-- The slot fold from two accumulators agreeing on the candidate
component: equal candidates, and either equal posterior states or a full
passthrough on both sides. -/
theorem ssb_slots_pair (b : Block) (r : Room) (m : AssignMap)
    (slots : List TimePreference) (acc acc' : CMCtx × Option (Frac × Assignment))
    (h : acc.2 = acc'.2) :
    (slots.foldl (ssbSlotStep b r m) acc).2 =
        (slots.foldl (ssbSlotStep b r m) acc').2
    ∧ ((slots.foldl (ssbSlotStep b r m) acc).1 =
          (slots.foldl (ssbSlotStep b r m) acc').1
      ∨ (slots.foldl (ssbSlotStep b r m) acc = acc
          ∧ slots.foldl (ssbSlotStep b r m) acc' = acc')) := by
  cases slots with
  | nil => exact ⟨h, Or.inr ⟨rfl, rfl⟩⟩
  | cons c cs =>
    rw [List.foldl_cons, List.foldl_cons, ssbSlotStep_congr b r m acc acc' h c]
    exact ⟨rfl, Or.inl rfl⟩

theorem ssb_rooms_pair (b : Block) (m : AssignMap) (rooms : List Room)
    (acc acc' : CMCtx × Option (Frac × Assignment)) (h : acc.2 = acc'.2) :
    (rooms.foldl (fun a room =>
        (get_possible_slots b room).foldl (ssbSlotStep b room m) a) acc).2 =
      (rooms.foldl (fun a room =>
        (get_possible_slots b room).foldl (ssbSlotStep b room m) a) acc').2
    ∧ ((rooms.foldl (fun a room =>
          (get_possible_slots b room).foldl (ssbSlotStep b room m) a) acc).1 =
        (rooms.foldl (fun a room =>
          (get_possible_slots b room).foldl (ssbSlotStep b room m) a) acc').1
      ∨ (rooms.foldl (fun a room =>
            (get_possible_slots b room).foldl (ssbSlotStep b room m) a) acc = acc
          ∧ rooms.foldl (fun a room =>
              (get_possible_slots b room).foldl (ssbSlotStep b room m) a) acc'
            = acc')) := by
  induction rooms generalizing acc acc' with
  | nil => exact ⟨h, Or.inr ⟨rfl, rfl⟩⟩
  | cons r rs ih =>
    rw [List.foldl_cons, List.foldl_cons]
    rcases ssb_slots_pair b r m (get_possible_slots b r) acc acc' h with ⟨h2, hd⟩
    rcases hd with h1 | ⟨hp, hp'⟩
    · have hb : (get_possible_slots b r).foldl (ssbSlotStep b r m) acc =
          (get_possible_slots b r).foldl (ssbSlotStep b r m) acc' :=
        Prod.ext h1 h2
      rw [hb]
      exact ⟨rfl, Or.inl rfl⟩
    · rw [hp, hp']
      exact ih acc acc' h

/-- `_schedule_single_block` is independent of the incoming manager
state: the produced assignment is identical, and the posterior state is
either identical or (when there was no candidate at all, and then no
assignment either) the untouched incoming state. -/
theorem schedule_single_block_pair (rm : ResourceManager) (b : Block)
    (m : AssignMap) (ctx ctx' : CMCtx) :
    (schedule_single_block rm ctx b m).2 = (schedule_single_block rm ctx' b m).2
    ∧ ((schedule_single_block rm ctx b m).1 = (schedule_single_block rm ctx' b m).1
      ∨ ((schedule_single_block rm ctx b m).1 = ctx
          ∧ (schedule_single_block rm ctx' b m).1 = ctx'
          ∧ (schedule_single_block rm ctx b m).2 = none)) := by
  unfold schedule_single_block
  dsimp only
  rcases ssb_rooms_pair b m (get_suitable_rooms rm b) (ctx, none) (ctx', none) rfl
    with ⟨h2, hd⟩
  constructor
  · rw [h2]
  · rcases hd with h1 | ⟨hp, hp'⟩
    · exact Or.inl (by rw [h1])
    · refine Or.inr ⟨by rw [hp], by rw [hp'], ?_⟩
      rw [hp]
      rfl

/-- The relation between two construction folds started from manager
states `ctx0` and `ctx0'`: equal maps and unassigned sets, and manager
states either equal or still untouched (in which case nothing was ever
placed). -/
abbrev ConsR (ctx0 ctx0' : CMCtx) (a a' : AssignMap × List String × CMCtx) : Prop :=
  a.1 = a'.1 ∧ a.2.1 = a'.2.1 ∧
    (a.2.2 = a'.2.2 ∨ (a.2.2 = ctx0 ∧ a'.2.2 = ctx0' ∧ a.1 = []))

theorem constructStep_pair (rm : ResourceManager) (ctx0 ctx0' : CMCtx)
    (a a' : AssignMap × List String × CMCtx) (b : Block)
    (h : ConsR ctx0 ctx0' a a') :
    ConsR ctx0 ctx0' (constructStep rm a b) (constructStep rm a' b) := by
  obtain ⟨m1, u1, c1⟩ := a
  obtain ⟨m1', u1', c1'⟩ := a'
  obtain ⟨h1, h2, hd⟩ := h
  subst h1
  subst h2
  rcases hd with h3 | ⟨h3, h3', hnil⟩
  · subst h3
    exact ⟨rfl, rfl, Or.inl rfl⟩
  · have hcs : ∀ (mm : AssignMap) (uu : List String) (c : CMCtx),
        constructStep rm (mm, uu, c) b =
          match (schedule_single_block rm c b mm).2 with
          | some assignment =>
            (alInsert mm b.id assignment, uu.erase b.id,
              (schedule_single_block rm c b mm).1)
          | none => (mm, uu, (schedule_single_block rm c b mm).1) :=
      fun mm uu c => rfl
    rw [hcs m1 u1 c1, hcs m1 u1 c1']
    rcases schedule_single_block_pair rm b m1 c1 c1' with ⟨hs2, hsd⟩
    cases hres : (schedule_single_block rm c1 b m1).2 with
    | some asn =>
      have hres' : (schedule_single_block rm c1' b m1).2 = some asn := by
        rw [← hs2, hres]
      rw [hres']
      rcases hsd with heq | ⟨hp, hp', hnone⟩
      · exact ⟨rfl, rfl, Or.inl heq⟩
      · rw [hres] at hnone
        exact absurd hnone (by simp)
    | none =>
      have hres' : (schedule_single_block rm c1' b m1).2 = none := by
        rw [← hs2, hres]
      rw [hres']
      rcases hsd with heq | ⟨hp, hp', hx⟩
      · exact ⟨rfl, rfl, Or.inl heq⟩
      · refine ⟨rfl, rfl, Or.inr ⟨?_, ?_, hnil⟩⟩
        · show (schedule_single_block rm c1 b m1).1 = ctx0
          rw [hp]
          exact h3
        · show (schedule_single_block rm c1' b m1).1 = ctx0'
          rw [hp']
          exact h3'

theorem foldl_rel {α β : Type} (R : α → α → Prop) (f : α → β → α)
    (hf : ∀ (a a' : α) (b : β), R a a' → R (f a b) (f a' b)) :
    ∀ (l : List β) (a a' : α), R a a' → R (l.foldl f a) (l.foldl f a') := by
  intro l
  induction l with
  | nil => intro a a' h; exact h
  | cons hd tl ih => intro a a' h; exact ih _ _ (hf a a' hd h)

/-- The whole greedy construction of one attempt, as a function of the
incoming manager state. -/
def constructionOf (rm : ResourceManager) (blocks : List Block) (ctx : CMCtx) :
    AssignMap × List String × CMCtx :=
  (sort_blocks_by_priority rm blocks).foldl (constructStep rm)
    (([] : AssignMap), (blocks.map (fun b => b.id)).dedup, ctx)

theorem constructionOf_pair (rm : ResourceManager) (blocks : List Block)
    (ctx ctx' : CMCtx) :
    ConsR ctx ctx' (constructionOf rm blocks ctx) (constructionOf rm blocks ctx') := by
  unfold constructionOf
  refine foldl_rel (ConsR ctx ctx') (constructStep rm)
    (fun a a' b h => constructStep_pair rm ctx ctx' a a' b h) _ _ _ ?_
  exact ⟨rfl, rfl, Or.inr ⟨rfl, rfl, rfl⟩⟩

/-- The canonical attempt construction: from the freshly built manager. -/
def cCon (rm : ResourceManager) (blocks : List Block) :
    AssignMap × List String × CMCtx :=
  constructionOf rm blocks initialCMCtx

def cMap (rm : ResourceManager) (blocks : List Block) : AssignMap :=
  (cCon rm blocks).1

def cUn (rm : ResourceManager) (blocks : List Block) : List String :=
  (cCon rm blocks).2.1

def cCtx1 (rm : ResourceManager) (blocks : List Block) : CMCtx :=
  (cCon rm blocks).2.2

def cScore (rm : ResourceManager) (blocks : List Block) : Frac :=
  evaluate_schedule (cCtx1 rm blocks) (cMap rm blocks)

def cAttempt (rm : ResourceManager) (blocks : List Block) : SchedulingAttempt :=
  ⟨cMap rm blocks, cScore rm blocks, cUn rm blocks⟩

def cLs (rm : ResourceManager) (blocks : List Block) : CMCtx × AssignMap :=
  local_search (cCtx1 rm blocks) (cMap rm blocks) 100

def cImpScore (rm : ResourceManager) (blocks : List Block) : Frac :=
  evaluate_schedule (cLs rm blocks).1 (cLs rm blocks).2

def cImp (rm : ResourceManager) (blocks : List Block) : SchedulingAttempt :=
  ⟨(cLs rm blocks).2, cImpScore rm blocks, []⟩

theorem constructionOf_fst (rm : ResourceManager) (blocks : List Block)
    (ctx : CMCtx) : (constructionOf rm blocks ctx).1 = cMap rm blocks :=
  (constructionOf_pair rm blocks ctx initialCMCtx).1

theorem constructionOf_usnd (rm : ResourceManager) (blocks : List Block)
    (ctx : CMCtx) : (constructionOf rm blocks ctx).2.1 = cUn rm blocks :=
  (constructionOf_pair rm blocks ctx initialCMCtx).2.1

theorem constructionOf_eval (rm : ResourceManager) (blocks : List Block)
    (ctx : CMCtx) :
    evaluate_schedule (constructionOf rm blocks ctx).2.2
        (constructionOf rm blocks ctx).1 = cScore rm blocks := by
  rcases constructionOf_pair rm blocks ctx initialCMCtx with ⟨h1, _, h3 | ⟨h3, h3', hnil⟩⟩
  · unfold cScore cCtx1 cMap cCon
    rw [h1, h3]
  · have hnil' : (constructionOf rm blocks initialCMCtx).1 = [] := by
      rw [← h1]; exact hnil
    unfold cScore cMap cCon
    rw [hnil, hnil', evaluate_schedule_empty, evaluate_schedule_empty]

theorem constructionOf_csnd (rm : ResourceManager) (blocks : List Block)
    (ctx : CMCtx) (hne : cMap rm blocks ≠ []) :
    (constructionOf rm blocks ctx).2.2 = cCtx1 rm blocks := by
  rcases constructionOf_pair rm blocks ctx initialCMCtx with ⟨h1, _, h3 | ⟨h3, h3', hnil⟩⟩
  · exact h3
  · exfalso
    apply hne
    unfold cMap cCon
    rw [← h1]
    exact hnil

theorem cMap_ne_of_ble (rm : ResourceManager) (blocks : List Block)
    (hble : Frac.ble (frac 7 10) (cScore rm blocks) = true) :
    cMap rm blocks ≠ [] := by
  intro hnil
  unfold cScore at hble
  rw [hnil, evaluate_schedule_empty] at hble
  exact absurd hble (by decide)

/-- One unrolling of the attempt loop, phrased through `constructionOf`. -/
theorem attempt_loop_succ (rm : ResourceManager) (blocks : List Block) (n : Nat)
    (best : Option SchedulingAttempt) (ctx : CMCtx) :
    attempt_loop rm blocks (n+1) best ctx =
      (let step := constructionOf rm blocks ctx
      let current_assignments := step.1
      let un := step.2.1
      let ctx1 := step.2.2
      let attempt_score := evaluate_schedule ctx1 current_assignments
      let current_attempt : SchedulingAttempt :=
        ⟨current_assignments, attempt_score, un⟩
      let best1 := if is_better_attempt best current_attempt then
        some current_attempt else best
      if un.isEmpty && Frac.ble (frac 19 20) attempt_score then best1
      else if un.isEmpty && Frac.ble (frac 7 10) attempt_score then
        let ls := local_search ctx1 current_assignments 100
        let improved_score := evaluate_schedule ls.1 ls.2
        let improved_attempt : SchedulingAttempt := ⟨ls.2, improved_score, []⟩
        let best2 := if is_better_attempt best1 improved_attempt then
          some improved_attempt else best1
        attempt_loop rm blocks n best2 ls.1
      else attempt_loop rm blocks n best1 ctx1) := rfl

theorem attempt_loop_zero (rm : ResourceManager) (blocks : List Block)
    (best : Option SchedulingAttempt) (ctx : CMCtx) :
    attempt_loop rm blocks 0 best ctx = best := rfl

theorem is_better_attempt_false_of (b a : SchedulingAttempt)
    (hlen : a.unassigned_blocks.length = b.unassigned_blocks.length)
    (hle : a.score.toRat ≤ b.score.toRat) :
    is_better_attempt (some b) a = false := by
  show (if a.unassigned_blocks.length < b.unassigned_blocks.length then true
    else if a.unassigned_blocks.length = b.unassigned_blocks.length then
      Frac.blt b.score a.score
    else false) = false
  rw [if_neg (by omega), if_pos hlen, Frac.blt_false_iff]
  exact hle

theorem is_better_attempt_self (a : SchedulingAttempt) :
    is_better_attempt (some a) a = false :=
  is_better_attempt_false_of a a rfl (le_refl _)

/-- `_local_search` output scores at least the input (the same invariant
argument as the C10 theorem, shared for the loop analysis). -/
theorem local_search_eval_le (ctx : CMCtx) (m : AssignMap) (it : Nat) :
    (evaluate_schedule ctx m).toRat ≤
      (evaluate_schedule (local_search ctx m it).1 (local_search ctx m it).2).toRat := by
  have h0 : LSInv (evaluate_schedule ctx m).toRat
      ⟨m, evaluate_schedule ctx m, false, ctx⟩ := ⟨le_refl _, le_refl _⟩
  have h := lsLoop_inv _ it _ h0
  exact le_trans h.1 h.2

/-- Once `best_attempt` holds an attempt at least as good as the
canonical attempt (and, when local search fires, at least as good as the
canonical improved attempt), the remaining attempts never replace it. -/
theorem attempt_loop_fixed (rm : ResourceManager) (blocks : List Block)
    (B : SchedulingAttempt)
    (h1 : is_better_attempt (some B) (cAttempt rm blocks) = false)
    (h2 : cUn rm blocks = [] → Frac.ble (frac 7 10) (cScore rm blocks) = true →
      is_better_attempt (some B) (cImp rm blocks) = false) :
    ∀ (fuel : Nat) (ctx : CMCtx), attempt_loop rm blocks fuel (some B) ctx = some B := by
  intro fuel
  induction fuel with
  | zero => intro ctx; rfl
  | succ n ih =>
    intro ctx
    rw [attempt_loop_succ]
    dsimp only
    rw [constructionOf_eval rm blocks ctx, constructionOf_fst rm blocks ctx,
        constructionOf_usnd rm blocks ctx]
    rw [show (⟨cMap rm blocks, cScore rm blocks, cUn rm blocks⟩ : SchedulingAttempt)
      = cAttempt rm blocks from rfl]
    rw [h1]
    simp only [Bool.false_eq_true, if_false]
    by_cases hc1 : ((cUn rm blocks).isEmpty
        && Frac.ble (frac 19 20) (cScore rm blocks)) = true
    · rw [if_pos hc1]
    · rw [if_neg hc1]
      by_cases hc2 : ((cUn rm blocks).isEmpty
          && Frac.ble (frac 7 10) (cScore rm blocks)) = true
      · rw [if_pos hc2]
        rw [Bool.and_eq_true] at hc2
        obtain ⟨hUnB, hble⟩ := hc2
        have hUn : cUn rm blocks = [] := (isEmpty_true_iff _).mp hUnB
        have hne := cMap_ne_of_ble rm blocks hble
        rw [constructionOf_csnd rm blocks ctx hne]
        rw [show local_search (cCtx1 rm blocks) (cMap rm blocks) 100
          = cLs rm blocks from rfl]
        rw [show (⟨(cLs rm blocks).2,
            evaluate_schedule (cLs rm blocks).1 (cLs rm blocks).2, []⟩ :
            SchedulingAttempt) = cImp rm blocks from rfl]
        rw [h2 hUn hble]
        simp only [Bool.false_eq_true, if_false]
        exact ih _
      · rw [if_neg hc2]
        exact ih _

/-- The attempt loop's result does not depend on the incoming
constraint-manager state. -/
theorem attempt_loop_ctx_indep (rm : ResourceManager) (blocks : List Block) :
    ∀ (fuel : Nat) (best : Option SchedulingAttempt) (ctx ctx' : CMCtx),
    attempt_loop rm blocks fuel best ctx = attempt_loop rm blocks fuel best ctx' := by
  intro fuel
  induction fuel with
  | zero => intro best ctx ctx'; rfl
  | succ n ih =>
    intro best ctx ctx'
    rw [attempt_loop_succ rm blocks n best ctx, attempt_loop_succ rm blocks n best ctx']
    dsimp only
    rw [constructionOf_eval rm blocks ctx, constructionOf_fst rm blocks ctx,
        constructionOf_usnd rm blocks ctx,
        constructionOf_eval rm blocks ctx', constructionOf_fst rm blocks ctx',
        constructionOf_usnd rm blocks ctx']
    by_cases hc1 : ((cUn rm blocks).isEmpty
        && Frac.ble (frac 19 20) (cScore rm blocks)) = true
    · rw [if_pos hc1, if_pos hc1]
    · rw [if_neg hc1, if_neg hc1]
      by_cases hc2 : ((cUn rm blocks).isEmpty
          && Frac.ble (frac 7 10) (cScore rm blocks)) = true
      · rw [if_pos hc2, if_pos hc2]
        rw [Bool.and_eq_true] at hc2
        obtain ⟨hUnB, hble⟩ := hc2
        have hne := cMap_ne_of_ble rm blocks hble
        rw [constructionOf_csnd rm blocks ctx hne,
            constructionOf_csnd rm blocks ctx' hne]
      · rw [if_neg hc2, if_neg hc2]
        exact ih _ _ _

/-- Every attempt after the first reconstructs the same attempt, and the
strict-improvement comparison never replaces the stored best, so more
fuel changes nothing. -/
theorem attempt_loop_collapse (rm : ResourceManager) (blocks : List Block)
    (fuel : Nat) (ctx : CMCtx) :
    attempt_loop rm blocks (fuel+1) none ctx = attempt_loop rm blocks 1 none ctx := by
  rw [attempt_loop_succ rm blocks fuel none ctx, attempt_loop_succ rm blocks 0 none ctx]
  dsimp only
  rw [constructionOf_eval rm blocks ctx, constructionOf_fst rm blocks ctx,
      constructionOf_usnd rm blocks ctx]
  rw [show (⟨cMap rm blocks, cScore rm blocks, cUn rm blocks⟩ : SchedulingAttempt)
    = cAttempt rm blocks from rfl]
  rw [show is_better_attempt none (cAttempt rm blocks) = true from rfl]
  simp only [eq_self_iff_true, if_true]
  by_cases hc1 : ((cUn rm blocks).isEmpty
      && Frac.ble (frac 19 20) (cScore rm blocks)) = true
  · rw [if_pos hc1, if_pos hc1]
  · rw [if_neg hc1, if_neg hc1]
    by_cases hc2 : ((cUn rm blocks).isEmpty
        && Frac.ble (frac 7 10) (cScore rm blocks)) = true
    · rw [if_pos hc2, if_pos hc2]
      rw [Bool.and_eq_true] at hc2
      obtain ⟨hUnB, hble⟩ := hc2
      have hUn : cUn rm blocks = [] := (isEmpty_true_iff _).mp hUnB
      have hne := cMap_ne_of_ble rm blocks hble
      rw [constructionOf_csnd rm blocks ctx hne]
      rw [show local_search (cCtx1 rm blocks) (cMap rm blocks) 100
        = cLs rm blocks from rfl]
      rw [show (⟨(cLs rm blocks).2,
          evaluate_schedule (cLs rm blocks).1 (cLs rm blocks).2, []⟩ :
          SchedulingAttempt) = cImp rm blocks from rfl]
      rw [attempt_loop_zero]
      by_cases hib : is_better_attempt (some (cAttempt rm blocks)) (cImp rm blocks)
          = true
      · rw [if_pos hib]
        apply attempt_loop_fixed
        · apply is_better_attempt_false_of
          · show (cUn rm blocks).length = ([] : List String).length
            rw [hUn]
          · show (cScore rm blocks).toRat ≤ (cImpScore rm blocks).toRat
            exact local_search_eval_le (cCtx1 rm blocks) (cMap rm blocks) 100
        · intro _ _
          exact is_better_attempt_self (cImp rm blocks)
      · have hib' : is_better_attempt (some (cAttempt rm blocks)) (cImp rm blocks)
            = false := by
          cases hx : is_better_attempt (some (cAttempt rm blocks)) (cImp rm blocks)
          · rfl
          · exact absurd hx hib
        rw [if_neg hib]
        apply attempt_loop_fixed
        · exact is_better_attempt_self _
        · intro _ _
          exact hib'
    · rw [if_neg hc2, if_neg hc2, attempt_loop_zero]
      apply attempt_loop_fixed
      · exact is_better_attempt_self _
      · intro hUn hble
        exfalso
        apply hc2
        rw [hUn, hble]
        rfl

/-- C8. `schedule_blocks` is deterministic: its result does not depend
on the constraint manager's incoming mutable state — the only state a
second run on the same engine could inherit from the first (the engine
resets `best_attempt`, and `current_attempt` is never written). Two runs
on the same course assignments, study plan and max_attempts therefore
return identical assignment maps: the same keys, and per key the same
block, room, day and start time. -/
theorem c8_deterministic (rm : ResourceManager)
    (cas : List CourseAssignment) (sp : StudyPlan) (n : Nat)
    (ctx0 ctx0' : CMCtx) :
    schedule_blocks_from rm ctx0 cas sp n = schedule_blocks_from rm ctx0' cas sp n := by
  unfold schedule_blocks_from
  dsimp only
  rw [attempt_loop_ctx_indep rm (convert_course_assignments_to_blocks cas sp) n
    none ctx0 ctx0']

/-- C9. For every input and every max_attempts k ≥ 1, `schedule_blocks`
returns exactly what it returns with max_attempts = 1: no per-attempt
state carries over (`current_attempt` is never written and construction
only depends on the manager state through nothing at all), so every
attempt rebuilds the same `SchedulingAttempt`, and `_is_better_attempt`'s
strict comparison keeps the first stored best. -/
theorem c9_max_attempts_irrelevant (rm : ResourceManager)
    (cas : List CourseAssignment) (sp : StudyPlan) (k : Nat) (hk : 1 ≤ k) :
    schedule_blocks rm cas sp k = schedule_blocks rm cas sp 1 := by
  obtain ⟨n, rfl⟩ : ∃ n, k = n + 1 := ⟨k - 1, by omega⟩
  unfold schedule_blocks schedule_blocks_from
  dsimp only
  rw [attempt_loop_collapse]

/-- C9 witness: two attempts coincide with one on the concrete
one-course input. -/
theorem c9_max_attempts_irrelevant_witness :
    schedule_blocks rmW [caW] spW 2 = schedule_blocks rmW [caW] spW 1 :=
  c9_max_attempts_irrelevant rmW [caW] spW 2 (by decide)

/-! ### No room double-booking (claim C1) -/

/-- No room is double-booked: distinct assignments in the map that share
a room id occupy different (day, start_time) pairs. -/
def RoomExclusive (m : AssignMap) : Prop :=
  ∀ kv1 ∈ m, ∀ kv2 ∈ m, kv1.1 ≠ kv2.1 → kv1.2.room.id = kv2.2.room.id →
    slotKey kv1.2 ≠ slotKey kv2.2

/-- Every map entry's slot is literally one of its staff member's
timing-preference entries (true of all maps the greedy construction
builds, since the modelled enumerator only offers preference slots). -/
def SlotsPreferred (m : AssignMap) : Prop :=
  ∀ kv ∈ m, kv.2.time_slot ∈ kv.2.block.staff_member.timing_preferences

abbrev GoodMap (m : AssignMap) : Prop := RoomExclusive m ∧ SlotsPreferred m

theorem toRat_frac_19_20 : (frac 19 20).toRat = 19/20 := by
  rw [toRat_frac 19 20 (by norm_num)]
  norm_num

theorem get_possible_slots_mem (b : Block) (r : Room) (s : TimePreference)
    (h : s ∈ get_possible_slots b r) : s ∈ b.staff_member.timing_preferences := by
  unfold get_possible_slots get_available_slots at h
  exact (List.mem_filter.mp h).1

/-- A successful `check_all_constraints` verdict passed its first
registered check, the room-booking constraint. -/
theorem check_all_fst_room (b : Block) (s : TimePreference) (r : Room)
    (m : AssignMap) (h : (check_all_constraints b s r m).2.1 = true) :
    check_room_booking (update_state m) b s r = true := by
  cases hcb : check_room_booking (update_state m) b s r
  · exfalso
    unfold check_all_constraints at h
    simp [hard_constraints, check_all_constraints.go, hcb] at h
  · rfl

/-- The candidate retained by the slot fold targets the folded block,
sits on a preferred slot, and passed the hard constraints against the
fixed in-flight map. -/
def CandOK (b : Block) (m : AssignMap) (o : Option (Frac × Assignment)) : Prop :=
  ∀ sc a, o = some (sc, a) → a.block = b ∧
    a.time_slot ∈ b.staff_member.timing_preferences ∧
    (check_all_constraints b a.time_slot a.room m).2.1 = true

theorem ssbSlotStep_snd_cases (b : Block) (r : Room) (m : AssignMap)
    (acc : CMCtx × Option (Frac × Assignment)) (slot : TimePreference) :
    (ssbSlotStep b r m acc slot).2 = acc.2 ∨
    ((ssbSlotStep b r m acc slot).2 =
        some (evaluate_soft_constraints (check_all_constraints b slot r m).1
          b slot r, ⟨b, slot, r⟩)
      ∧ (check_all_constraints b slot r m).2.1 = true) := by
  unfold ssbSlotStep
  dsimp only
  split
  · exact Or.inl rfl
  · rename_i hcond
    have hres : (check_all_constraints b slot r m).2.1 = true := by
      cases hx : (check_all_constraints b slot r m).2.1
      · rw [hx] at hcond
        simp at hcond
      · rfl
    cases hacc : acc.2 with
    | none => exact Or.inr ⟨rfl, hres⟩
    | some p =>
      obtain ⟨bs, bst⟩ := p
      dsimp only
      split
      · exact Or.inr ⟨rfl, hres⟩
      · exact Or.inl rfl

theorem foldl_preserve_mem {α β : Type} (P : β → Prop) (f : β → α → β)
    (l : List α) (h : ∀ b a, a ∈ l → P b → P (f b a)) :
    ∀ (b : β), P b → P (l.foldl f b) := by
  induction l with
  | nil => intro b hb; exact hb
  | cons hd tl ih =>
    intro b hb
    exact ih (fun b' a ha hb' => h b' a (List.mem_cons_of_mem hd ha) hb') _
      (h b hd (List.mem_cons_self hd tl) hb)

theorem ssbSlotStep_candOK (b : Block) (r : Room) (m : AssignMap)
    (acc : CMCtx × Option (Frac × Assignment)) (slot : TimePreference)
    (hs : slot ∈ b.staff_member.timing_preferences)
    (h : CandOK b m acc.2) : CandOK b m (ssbSlotStep b r m acc slot).2 := by
  rcases ssbSlotStep_snd_cases b r m acc slot with hc | ⟨hc, hres⟩
  · rw [hc]; exact h
  · rw [hc]
    intro sc a heq
    injection heq with heq2
    injection heq2 with heq3 heq4
    subst heq4
    exact ⟨rfl, hs, hres⟩

theorem schedule_single_block_some (rm : ResourceManager) (ctx : CMCtx)
    (b : Block) (m : AssignMap) (a : Assignment)
    (h : (schedule_single_block rm ctx b m).2 = some a) :
    a.block = b ∧ a.time_slot ∈ b.staff_member.timing_preferences ∧
      (check_all_constraints b a.time_slot a.room m).2.1 = true := by
  have hP : CandOK b m ((get_suitable_rooms rm b).foldl
      (fun acc room => (get_possible_slots b room).foldl (ssbSlotStep b room m) acc)
      (ctx, none)).2 := by
    apply foldl_preserve
      (fun (acc : CMCtx × Option (Frac × Assignment)) => CandOK b m acc.2)
    · intro acc room hacc
      apply foldl_preserve_mem
        (fun (acc : CMCtx × Option (Frac × Assignment)) => CandOK b m acc.2)
        (ssbSlotStep b room m) (get_possible_slots b room)
      · intro acc2 slot hslot hacc2
        exact ssbSlotStep_candOK b room m acc2 slot
          (get_possible_slots_mem b room slot hslot) hacc2
      · exact hacc
    · intro sc a2 heq
      exact absurd heq (by simp)
  unfold schedule_single_block at h
  dsimp only at h
  cases hfin : ((get_suitable_rooms rm b).foldl
      (fun acc room => (get_possible_slots b room).foldl (ssbSlotStep b room m) acc)
      (ctx, none)).2 with
  | none =>
    rw [hfin] at h
    exact absurd h (by simp)
  | some p =>
    obtain ⟨sc, a2⟩ := p
    rw [hfin] at h
    have ha : a2 = a := by
      have h2 : (some a2 : Option Assignment) = some a := h
      injection h2
    subst ha
    exact hP sc a2 hfin

theorem constructStep_good (rm : ResourceManager)
    (acc : AssignMap × List String × CMCtx) (b : Block)
    (h : GoodMap acc.1) : GoodMap (constructStep rm acc b).1 := by
  unfold constructStep
  dsimp only
  cases hres : (schedule_single_block rm acc.2.2 b acc.1).2 with
  | none => exact h
  | some a =>
    obtain ⟨hab, hpref, hchk⟩ := schedule_single_block_some rm acc.2.2 b acc.1 a hres
    have hrb := check_all_fst_room b a.time_slot a.room acc.1 hchk
    rw [check_room_booking_iff, roomBooked_update_state] at hrb
    constructor
    · intro kv1 h1 kv2 h2 hne hrid hslot
      rcases mem_alInsert acc.1 b.id a kv1 h1 with he1 | hm1 <;>
        rcases mem_alInsert acc.1 b.id a kv2 h2 with he2 | hm2
      · rw [he1, he2] at hne
        exact hne rfl
      · apply hrb
        refine ⟨kv2, hm2, ?_, ?_⟩
        · rw [he1] at hrid
          exact hrid
        · rw [he1] at hslot
          exact hslot
      · apply hrb
        refine ⟨kv1, hm1, ?_, ?_⟩
        · rw [he2] at hrid
          exact hrid.symm
        · rw [he2] at hslot
          exact hslot.symm
      · exact h.1 kv1 hm1 kv2 hm2 hne hrid hslot
    · intro kv hkv
      rcases mem_alInsert acc.1 b.id a kv hkv with he | hm
      · rw [he]
        dsimp only
        rw [hab]
        exact hpref
      · exact h.2 kv hm

theorem constructionOf_good (rm : ResourceManager) (blocks : List Block)
    (ctx : CMCtx) : GoodMap (constructionOf rm blocks ctx).1 := by
  unfold constructionOf
  apply foldl_preserve
    (fun (acc : AssignMap × List String × CMCtx) => GoodMap acc.1)
    (constructStep rm) (fun acc b hp => constructStep_good rm acc b hp)
  constructor
  · intro kv1 h1
    exact absurd h1 (List.not_mem_nil kv1)
  · intro kv hkv
    exact absurd hkv (List.not_mem_nil kv)

/-- Every attempt the loop can store as best has a room-exclusive map:
the greedy construction books a room slot only after the room-booking
hard check against the in-flight map, and the local-search branch (the
only code path that could break the invariant) is unreachable — a fully
assigned attempt scores at least 3 on the modelled enumerator, so the
perfect-schedule branch fires first. -/
theorem attempt_loop_good (rm : ResourceManager) (blocks : List Block) :
    ∀ (fuel : Nat) (best : Option SchedulingAttempt) (ctx : CMCtx),
    (∀ A, best = some A → RoomExclusive A.assignments) →
    ∀ (A : SchedulingAttempt),
    attempt_loop rm blocks fuel best ctx = some A → RoomExclusive A.assignments := by
  intro fuel
  induction fuel with
  | zero =>
    intro best ctx hbest A h
    exact hbest A h
  | succ n ih =>
    intro best ctx hbest A h
    rw [attempt_loop_succ] at h
    dsimp only at h
    have hbest1 : ∀ A, (if is_better_attempt best
          ⟨(constructionOf rm blocks ctx).1,
            evaluate_schedule (constructionOf rm blocks ctx).2.2
              (constructionOf rm blocks ctx).1,
            (constructionOf rm blocks ctx).2.1⟩ = true then
          some ⟨(constructionOf rm blocks ctx).1,
            evaluate_schedule (constructionOf rm blocks ctx).2.2
              (constructionOf rm blocks ctx).1,
            (constructionOf rm blocks ctx).2.1⟩
        else best) = some A → RoomExclusive A.assignments := by
      intro A2 hA2
      split at hA2
      · injection hA2 with he
        subst he
        exact (constructionOf_good rm blocks ctx).1
      · exact hbest A2 hA2
    by_cases hc1 : ((constructionOf rm blocks ctx).2.1.isEmpty
        && Frac.ble (frac 19 20)
          (evaluate_schedule (constructionOf rm blocks ctx).2.2
            (constructionOf rm blocks ctx).1)) = true
    · rw [if_pos hc1] at h
      exact hbest1 A h
    · rw [if_neg hc1] at h
      by_cases hc2 : ((constructionOf rm blocks ctx).2.1.isEmpty
          && Frac.ble (frac 7 10)
            (evaluate_schedule (constructionOf rm blocks ctx).2.2
              (constructionOf rm blocks ctx).1)) = true
      · exfalso
        rw [Bool.and_eq_true] at hc2
        obtain ⟨hUnB, hble⟩ := hc2
        by_cases hm : (constructionOf rm blocks ctx).1 = []
        · rw [hm, evaluate_schedule_empty] at hble
          exact absurd hble (by decide)
        · have h3 := evaluate_schedule_ge_three
            (constructionOf rm blocks ctx).2.2 (constructionOf rm blocks ctx).1
            (constructionOf_good rm blocks ctx).2 hm
          apply hc1
          rw [Bool.and_eq_true]
          refine ⟨hUnB, ?_⟩
          rw [Frac.ble_iff, toRat_frac_19_20]
          linarith
      · rw [if_neg hc2] at h
        exact ih _ _ hbest1 A h

/-- C1. No map returned by `schedule_blocks` double-books a room: any
two assignments under distinct keys with the same room id sit at
different (day, start_time) pairs. The greedy constructor books a slot
only after the room-booking hard check against the in-flight map, and
the local-search path — whose swaps are only guarded by room type,
capacity and an empty-map time check — can never execute: its guard
needs 0.7 ≤ score < 0.95 with nothing unassigned, while a fully assigned
attempt scores at least 3 (every enumerated slot is a staff preference
slot) and an empty one scores 0. -/
theorem c1_no_room_double_booking (rm : ResourceManager)
    (cas : List CourseAssignment) (sp : StudyPlan) (n : Nat) (m : AssignMap)
    (h : schedule_blocks rm cas sp n = Except.ok m) : RoomExclusive m := by
  unfold schedule_blocks schedule_blocks_from at h
  dsimp only at h
  cases hlo : attempt_loop rm (convert_course_assignments_to_blocks cas sp) n
      none initialCMCtx with
  | none =>
    rw [hlo] at h
    have h2 : (Except.error "Could not find a valid schedule" :
        Except String AssignMap) = Except.ok m := h
    exact Except.noConfusion h2
  | some best =>
    rw [hlo] at h
    have h2 : (Except.ok best.assignments : Except String AssignMap) =
        Except.ok m := h
    injection h2 with hm
    rw [← hm]
    exact attempt_loop_good rm (convert_course_assignments_to_blocks cas sp) n
      none initialCMCtx (fun A hA => Option.noConfusion hA) best hlo

/-- C1 witness: the concrete one-course run returns the one-assignment
map `mC5`, which the theorem certifies room-exclusive. -/
theorem c1_no_room_double_booking_witness :
    schedule_blocks rmW [caW] spW 1 = Except.ok mC5 ∧ RoomExclusive mC5 :=
  ⟨by decide, c1_no_room_double_booking rmW [caW] spW 1 mC5 (by decide)⟩

end Sched